import Mathlib

/-!
Verification of the FurryUI terminal runtime core: a shallow embedding of the
coalescing scheduling primitives (`runtime/invalidator.go`,
`runtime/queue_scheduler.go`), the dirty-tracking cell buffer
(`runtime/buffer.go`), the layered screen (`runtime/screen.go`), the widget
lifecycle traversals (`runtime/lifecycle.go`) and the render flush of the
event loop (`app.go`), together with proofs of the behavioural properties the
design documentation states about them.

Machine integers: Go `int` coordinates are embedded as `Int`; array indices
and dimensions, which the code keeps non-negative, as `Nat`; the `uint32`
dirty generation counter as a `Nat` kept below `2^32` with the explicit
wraparound check of `advanceDirtyGen`.
-/

namespace FurryUI

/-- Modelled from the spec: the `backend.Style` type is defined in a backend
source file that is not part of this repository snapshot; the spec describes
it only as "a style attribute (colors/attributes)", a value type with a zero
value, so it is embedded as an opaque attribute word. -/
structure Style where
  attrs : Nat
deriving DecidableEq, Repr

/-- Modelled from the spec: `backend.Cell` ("a display character plus a style
attribute; value type") — its defining backend source file is not in the
snapshot; `runtime.Cell` is an alias for it. The Go zero value has rune 0 and
zero style. -/
structure Cell where
  rune : Char
  style : Style
deriving DecidableEq, Repr

/-- Go zero value of `Cell` (what `make([]Cell, n)` fills the array with). -/
def Cell.zero : Cell := ⟨Char.ofNat 0, ⟨0⟩⟩

/-- Modelled from the spec: `backend.DefaultStyle()` is defined outside the
snapshot; the zero style value is used. -/
def defaultStyle : Style := ⟨0⟩

/-- Modelled from the spec: `runtime.Rect` ("integer (x, y, width, height);
zero-area rects carry no content") — its defining source file is not in the
snapshot, but every use site in `buffer.go` and `screen.go` accesses exactly
the four `int` fields X, Y, Width, Height. -/
structure Rect where
  x : Int
  y : Int
  width : Int
  height : Int
deriving DecidableEq, Repr

/-- The Go zero value `Rect{}`. -/
def Rect.zero : Rect := ⟨0, 0, 0, 0⟩

/-! ## Coalescing scheduling primitives

`runtime/invalidator.go` and `runtime/queue_scheduler.go`. The atomic
pending flag is embedded as a `Bool` field and `CompareAndSwap(false, true)`
as a test of that field, which is exact for the sequential call sequences the
claims quantify over. The post function `post func(Message) bool` is
abstracted by its observable behaviour: `hasPost` says whether it is non-nil,
the result of each call is passed in as the `postOk` argument, `postCalls`
counts invocations and `posted` counts invocations that returned true, i.e.
wake messages actually delivered into the loop's queue. -/

/-- State of a `runtime.Invalidator` together with the instrumentation
counters for its post function. -/
structure Invalidator where
  hasPost : Bool
  pending : Bool
  postCalls : Nat
  posted : Nat
deriving DecidableEq, Repr

/-- `NewInvalidator` wired to a non-nil post function. -/
def Invalidator.new : Invalidator := ⟨true, false, 0, 0⟩

/-- Shallow embedding of `(*Invalidator).Invalidate` (invalidator.go:17-26):
guard on a nil post function, then `pending.CompareAndSwap(false, true)`;
only on a successful swap is `i.post` called, and if the post reports failure
the pending flag is stored back to false. -/
def Invalidator.Invalidate (i : Invalidator) (postOk : Bool) : Invalidator :=
  if i.hasPost = false then i
  else if i.pending = false then
    let i1 : Invalidator :=
      { i with pending := true, postCalls := i.postCalls + 1,
               posted := i.posted + (if postOk then 1 else 0) }
    if postOk then i1 else { i1 with pending := false }
  else i

/-- Shallow embedding of `(*Invalidator).resetPending` (invalidator.go:37-42). -/
def Invalidator.resetPending (i : Invalidator) : Invalidator :=
  { i with pending := false }

/-- N successive `Invalidate` calls whose underlying posts all succeed. -/
def Invalidator.InvalidateOkN (i : Invalidator) : Nat → Invalidator
  | 0 => i
  | n + 1 => (i.InvalidateOkN n).Invalidate true

/-- N successive `Invalidate` calls whose underlying posts all fail. -/
def Invalidator.InvalidateFailN (i : Invalidator) : Nat → Invalidator
  | 0 => i
  | n + 1 => (i.InvalidateFailN n).Invalidate false

/-- State of a `runtime.QueueScheduler`: the wrapped `state.Queue` is
embedded as the list of scheduled callbacks (identified by tokens), plus the
same pending flag and post instrumentation as the invalidator. -/
structure QueueScheduler where
  queue : List Nat
  hasPost : Bool
  pending : Bool
  postCalls : Nat
  posted : Nat
deriving DecidableEq, Repr

/-- `NewQueueScheduler` with an empty queue and a non-nil post function. -/
def QueueScheduler.new : QueueScheduler := ⟨[], true, false, 0, 0⟩

/-- Shallow embedding of `(*QueueScheduler).Schedule` (queue_scheduler.go:28-41):
a nil callback returns immediately; otherwise the callback is enqueued, and
if the post function is non-nil the same CompareAndSwap / post / reset-on-
failure sequence as `Invalidate` runs with a `QueueFlushMsg`. -/
def QueueScheduler.Schedule (s : QueueScheduler) (fn : Option Nat)
    (postOk : Bool) : QueueScheduler :=
  match fn with
  | none => s
  | some f =>
    let s1 : QueueScheduler := { s with queue := s.queue ++ [f] }
    if s1.hasPost = false then s1
    else if s1.pending = false then
      let s2 : QueueScheduler :=
        { s1 with pending := true, postCalls := s1.postCalls + 1,
                  posted := s1.posted + (if postOk then 1 else 0) }
      if postOk then s2 else { s2 with pending := false }
    else s1

/-- Shallow embedding of `(*QueueScheduler).resetPending`
(queue_scheduler.go:43-48). -/
def QueueScheduler.resetPending (s : QueueScheduler) : QueueScheduler :=
  { s with pending := false }

/-- N successive `Schedule` calls with a non-nil callback, all posts
succeeding. -/
def QueueScheduler.ScheduleOkN (s : QueueScheduler) (f : Nat) :
    Nat → QueueScheduler
  | 0 => s
  | n + 1 => (s.ScheduleOkN f n).Schedule (some f) true

/-- N successive `Schedule` calls with a non-nil callback, all posts
failing. -/
def QueueScheduler.ScheduleFailN (s : QueueScheduler) (f : Nat) :
    Nat → QueueScheduler
  | 0 => s
  | n + 1 => (s.ScheduleFailN f n).Schedule (some f) false

/-! ### Lemmas about the scheduling primitives -/

lemma Invalidator.Invalidate_of_pending (i : Invalidator) (ok : Bool)
    (h : i.pending = true) : i.Invalidate ok = i := by
  simp [Invalidate, h]

lemma Invalidator.Invalidate_true_of_clear (i : Invalidator)
    (hp : i.pending = false) (hh : i.hasPost = true) :
    i.Invalidate true =
      { i with pending := true, postCalls := i.postCalls + 1,
               posted := i.posted + 1 } := by
  simp [Invalidate, hp, hh]

lemma Invalidator.Invalidate_false_of_clear (i : Invalidator)
    (hp : i.pending = false) (hh : i.hasPost = true) :
    i.Invalidate false =
      { i with pending := false, postCalls := i.postCalls + 1 } := by
  simp [Invalidate, hp, hh]

lemma Invalidator.InvalidateOkN_eq_one (i : Invalidator)
    (hp : i.pending = false) (hh : i.hasPost = true) :
    ∀ n, 1 ≤ n → i.InvalidateOkN n = i.Invalidate true := by
  intro n hn
  induction n with
  | zero => omega
  | succ k ih =>
    cases Nat.eq_zero_or_pos k with
    | inl hk => subst hk; rfl
    | inr hk =>
      show (i.InvalidateOkN k).Invalidate true = i.Invalidate true
      rw [ih hk]
      exact Invalidate_of_pending _ _ (by rw [Invalidate_true_of_clear i hp hh])

lemma Invalidator.InvalidateFailN_spec (i : Invalidator)
    (hp : i.pending = false) (hh : i.hasPost = true) (k : Nat) :
    (i.InvalidateFailN k).pending = false ∧
      (i.InvalidateFailN k).hasPost = true ∧
      (i.InvalidateFailN k).postCalls = i.postCalls + k ∧
      (i.InvalidateFailN k).posted = i.posted := by
  induction k with
  | zero => exact ⟨hp, hh, rfl, rfl⟩
  | succ k ih =>
    obtain ⟨h1, h2, h3, h4⟩ := ih
    show (_ : Invalidator).pending = false ∧ _
    rw [InvalidateFailN, Invalidate_false_of_clear _ h1 h2]
    refine ⟨rfl, h2, ?_, h4⟩
    simp [h3]
    omega

lemma QueueScheduler.Schedule_of_pending (s : QueueScheduler) (f : Nat)
    (ok : Bool) (h : s.pending = true) :
    s.Schedule (some f) ok = { s with queue := s.queue ++ [f] } := by
  simp [Schedule, h]

lemma QueueScheduler.Schedule_true_of_clear (s : QueueScheduler) (f : Nat)
    (hp : s.pending = false) (hh : s.hasPost = true) :
    s.Schedule (some f) true =
      { s with queue := s.queue ++ [f], pending := true,
               postCalls := s.postCalls + 1, posted := s.posted + 1 } := by
  simp [Schedule, hp, hh]

lemma QueueScheduler.Schedule_false_of_clear (s : QueueScheduler) (f : Nat)
    (hp : s.pending = false) (hh : s.hasPost = true) :
    s.Schedule (some f) false =
      { s with queue := s.queue ++ [f], pending := false,
               postCalls := s.postCalls + 1 } := by
  simp [Schedule, hp, hh]

lemma QueueScheduler.ScheduleOkN_spec (s : QueueScheduler) (f : Nat)
    (hp : s.pending = false) (hh : s.hasPost = true) :
    ∀ n, 1 ≤ n →
      (s.ScheduleOkN f n).posted = s.posted + 1 ∧
        (s.ScheduleOkN f n).pending = true ∧
        (s.ScheduleOkN f n).hasPost = true := by
  intro n hn
  induction n with
  | zero => omega
  | succ k ih =>
    cases Nat.eq_zero_or_pos k with
    | inl hk =>
      subst hk
      have h := Schedule_true_of_clear s f hp hh
      refine ⟨?_, ?_, ?_⟩ <;> simp [ScheduleOkN, h, hh]
    | inr hk =>
      obtain ⟨h1, h2, h3⟩ := ih hk
      have h := Schedule_of_pending (s.ScheduleOkN f k) f true h2
      refine ⟨?_, ?_, ?_⟩ <;> simp [ScheduleOkN, h, h1, h2, h3]

lemma QueueScheduler.ScheduleFailN_spec (s : QueueScheduler) (f : Nat)
    (hp : s.pending = false) (hh : s.hasPost = true) (k : Nat) :
    (s.ScheduleFailN f k).pending = false ∧
      (s.ScheduleFailN f k).hasPost = true ∧
      (s.ScheduleFailN f k).postCalls = s.postCalls + k ∧
      (s.ScheduleFailN f k).posted = s.posted := by
  induction k with
  | zero => exact ⟨hp, hh, rfl, rfl⟩
  | succ k ih =>
    obtain ⟨h1, h2, h3, h4⟩ := ih
    show (_ : QueueScheduler).pending = false ∧ _
    rw [ScheduleFailN, Schedule_false_of_clear _ _ h1 h2]
    refine ⟨rfl, h2, ?_, h4⟩
    simp [h3]
    omega

/-! ### Claim theorems for the scheduling primitives -/

/-- C1. Coalescing: for every sequence of N ≥ 1 `Invalidate()` calls (and of
M ≥ 1 `QueueScheduler.Schedule` calls with a non-nil callback) made while the
underlying post function succeeds and before the pending flag is cleared,
exactly one wake message is posted; after `resetPending` clears the flag, the
next call posts again, for 2 posts in total. -/
theorem coalesced_single_wake (i : Invalidator) (s : QueueScheduler)
    (f : Nat) (n m : Nat) (hn : 1 ≤ n) (hm : 1 ≤ m)
    (hip : i.pending = false) (hih : i.hasPost = true)
    (hsp : s.pending = false) (hsh : s.hasPost = true) :
    ((i.InvalidateOkN n).posted = i.posted + 1 ∧
        (((i.InvalidateOkN n).resetPending).Invalidate true).posted =
          i.posted + 2) ∧
      ((s.ScheduleOkN f m).posted = s.posted + 1 ∧
        (((s.ScheduleOkN f m).resetPending).Schedule (some f) true).posted =
          s.posted + 2) := by
  constructor
  · rw [Invalidator.InvalidateOkN_eq_one i hip hih n hn]
    simp [Invalidator.Invalidate, Invalidator.resetPending, hip, hih]
  · obtain ⟨h1, h2, h3⟩ := QueueScheduler.ScheduleOkN_spec s f hsp hsh m hm
    refine ⟨h1, ?_⟩
    have h := QueueScheduler.Schedule_true_of_clear
      ((s.ScheduleOkN f m).resetPending) f rfl h3
    rw [h]
    show (s.ScheduleOkN f m).posted + 1 = s.posted + 2
    omega

/-- Witness for C1 at a concrete input: a fresh invalidator and scheduler,
three calls each, then a reset and one more call. -/
theorem coalesced_single_wake_witness :
    (1 ≤ 3 ∧ 1 ≤ 3 ∧ Invalidator.new.pending = false ∧
        Invalidator.new.hasPost = true ∧ QueueScheduler.new.pending = false ∧
        QueueScheduler.new.hasPost = true) ∧
      (((Invalidator.new.InvalidateOkN 3).posted = Invalidator.new.posted + 1 ∧
          (((Invalidator.new.InvalidateOkN 3).resetPending).Invalidate
              true).posted = Invalidator.new.posted + 2) ∧
        ((QueueScheduler.new.ScheduleOkN 0 3).posted =
            QueueScheduler.new.posted + 1 ∧
          (((QueueScheduler.new.ScheduleOkN 0 3).resetPending).Schedule
              (some 0) true).posted = QueueScheduler.new.posted + 2)) :=
  ⟨⟨by decide, by decide, rfl, rfl, rfl, rfl⟩,
    coalesced_single_wake Invalidator.new QueueScheduler.new 0 3 3
      (by decide) (by decide) rfl rfl rfl rfl⟩

/-- C3. Failed-post retry: if the underlying post function returns false on
every call, each of N `Invalidate()` (resp. `Schedule`) calls performs its
own post attempt — after every prefix of k ≤ N calls the attempt counter has
grown by exactly k, no message was delivered, and the pending flag is false,
so no call is suppressed by a stale pending flag. -/
theorem failed_post_every_call_attempts (i : Invalidator) (s : QueueScheduler)
    (f : Nat) (hip : i.pending = false) (hih : i.hasPost = true)
    (hsp : s.pending = false) (hsh : s.hasPost = true) (k : Nat) :
    ((i.InvalidateFailN k).postCalls = i.postCalls + k ∧
        (i.InvalidateFailN k).pending = false ∧
        (i.InvalidateFailN k).posted = i.posted) ∧
      ((s.ScheduleFailN f k).postCalls = s.postCalls + k ∧
        (s.ScheduleFailN f k).pending = false ∧
        (s.ScheduleFailN f k).posted = s.posted) := by
  obtain ⟨h1, _, h3, h4⟩ := Invalidator.InvalidateFailN_spec i hip hih k
  obtain ⟨g1, _, g3, g4⟩ := QueueScheduler.ScheduleFailN_spec s f hsp hsh k
  exact ⟨⟨h3, h1, h4⟩, ⟨g3, g1, g4⟩⟩

/-- Witness for C3 at a concrete input: a fresh invalidator and scheduler and
four failing calls each. -/
theorem failed_post_every_call_attempts_witness :
    (Invalidator.new.pending = false ∧ Invalidator.new.hasPost = true ∧
        QueueScheduler.new.pending = false ∧
        QueueScheduler.new.hasPost = true) ∧
      (((Invalidator.new.InvalidateFailN 4).postCalls =
            Invalidator.new.postCalls + 4 ∧
          (Invalidator.new.InvalidateFailN 4).pending = false ∧
          (Invalidator.new.InvalidateFailN 4).posted =
            Invalidator.new.posted) ∧
        ((QueueScheduler.new.ScheduleFailN 7 4).postCalls =
            QueueScheduler.new.postCalls + 4 ∧
          (QueueScheduler.new.ScheduleFailN 7 4).pending = false ∧
          (QueueScheduler.new.ScheduleFailN 7 4).posted =
            QueueScheduler.new.posted)) :=
  ⟨⟨rfl, rfl, rfl, rfl⟩,
    failed_post_every_call_attempts Invalidator.new QueueScheduler.new 7
      rfl rfl rfl rfl 4⟩

/-! ## The dirty-tracking cell buffer

`runtime/buffer.go`. The Go slices `cells` and `dirtyStamp`, both of length
`width*height`, are embedded as total functions from the flat cell index;
only indices below `width*height` are ever read or written by the operations
(part of the C10 theorem below). Dimensions are `Nat` (the constructors are
only ever called with non-negative sizes; a negative size would make `make`
panic in Go). Coordinates are Go `int`, embedded as `Int`. The `uint32`
generation counter is a `Nat` together with the explicit mod-`2^32` wrap in
`advanceDirtyGen`. -/

/-- State of a `runtime.Buffer` (buffer.go:20-34). -/
structure Buffer where
  cells : Nat → Cell
  width : Nat
  height : Nat
  dirtyStamp : Nat → Nat
  dirtyGen : Nat
  dirtyAll : Bool
  dirtyCount : Nat
  dirtyRect : Rect
  dirtyIndices : List Nat
  dirtyListCap : Nat
  dirtyListEnabled : Bool

/-- Number of cells `width*height`. -/
def Buffer.total (b : Buffer) : Nat := b.width * b.height

/-- Shallow embedding of `calcDirtyListCap` (buffer.go:508-523). -/
def calcDirtyListCap (total : Nat) : Nat :=
  if total = 0 then 0
  else
    let c1 := total / 4
    let c2 := if c1 < 256 then 256 else c1
    let c3 := if c2 > 8192 then 8192 else c2
    if c3 > total then total else c3

/-- Shallow embedding of `NewBuffer` (buffer.go:37-50); a fresh `make` slice
is zero-filled, so both arrays are constantly zero. -/
def NewBuffer (w h : Nat) : Buffer :=
  { cells := fun _ => Cell.zero
    width := w
    height := h
    dirtyStamp := fun _ => 0
    dirtyGen := 1
    dirtyAll := false
    dirtyCount := 0
    dirtyRect := Rect.zero
    dirtyIndices := []
    dirtyListCap := calcDirtyListCap (w * h)
    dirtyListEnabled := true }

/-- The horizontal half of the dirty-rect expansion of `markCellDirty`
(buffer.go:337-342): grow the rectangle to include column x. -/
def Rect.expandX (r : Rect) (x : Int) : Rect :=
  if x < r.x then { r with width := r.width + (r.x - x), x := x }
  else if x ≥ r.x + r.width then { r with width := x - r.x + 1 }
  else r

/-- The vertical half of the dirty-rect expansion of `markCellDirty`
(buffer.go:343-348): grow the rectangle to include row y. -/
def Rect.expandY (r : Rect) (y : Int) : Rect :=
  if y < r.y then { r with height := r.height + (r.y - y), y := y }
  else if y ≥ r.y + r.height then { r with height := y - r.y + 1 }
  else r

/-- The dirty-rect expansion of `markCellDirty` (buffer.go:335-348): grow the
rectangle horizontally to include column x, then vertically to include
row y. -/
def Rect.expand (r : Rect) (x y : Int) : Rect :=
  (r.expandX x).expandY y

/-- Shallow embedding of `(*Buffer).markCellDirty` (buffer.go:323-359):
callers pass in-bounds coordinates (x, y) and the index idx = y*width+x. -/
def Buffer.markCellDirty (b : Buffer) (x y : Int) (idx : Nat) : Buffer :=
  if b.dirtyAll then b
  else if b.dirtyStamp idx ≠ b.dirtyGen then
    let b1 : Buffer :=
      { b with dirtyStamp := Function.update b.dirtyStamp idx b.dirtyGen,
               dirtyCount := b.dirtyCount + 1 }
    let b2 : Buffer :=
      if b1.dirtyCount = 1 then { b1 with dirtyRect := ⟨x, y, 1, 1⟩ }
      else { b1 with dirtyRect := b.dirtyRect.expand x y }
    if b2.dirtyListEnabled then
      if b2.dirtyCount ≤ b2.dirtyListCap then
        { b2 with dirtyIndices := b2.dirtyIndices ++ [idx] }
      else { b2 with dirtyListEnabled := false, dirtyIndices := [] }
    else b2
  else b

/-- Shallow embedding of `(*Buffer).Get` (buffer.go:99-104). -/
def Buffer.Get (b : Buffer) (x y : Int) : Cell :=
  if x < 0 ∨ x ≥ (b.width : Int) ∨ y < 0 ∨ y ≥ (b.height : Int) then
    ⟨' ', ⟨0⟩⟩
  else b.cells (y.toNat * b.width + x.toNat)

/-- The write-if-changed step shared by `Set` (buffer.go:112-118), the loop
bodies of `SetString` (buffer.go:138-144, 160-165, 177-182) and — via the
component-wise reading of the whole-cell comparison `b.cells[idx] != cell` —
the loop body of `Fill` (buffer.go:199-202): compare against the stored
cell, and only on an actual change store the new cell and mark it dirty.
Callers establish 0 ≤ x < width and 0 ≤ y < height. -/
def Buffer.writeCell (b : Buffer) (x y : Int) (r : Char) (s : Style) : Buffer :=
  let idx := y.toNat * b.width + x.toNat
  let old := b.cells idx
  if old.rune ≠ r ∨ old.style ≠ s then
    (({ b with cells := Function.update b.cells idx ⟨r, s⟩ } : Buffer).markCellDirty x y idx)
  else b

/-- Shallow embedding of `(*Buffer).Set` (buffer.go:108-119). -/
def Buffer.Set (b : Buffer) (x y : Int) (r : Char) (s : Style) : Buffer :=
  if x < 0 ∨ x ≥ (b.width : Int) ∨ y < 0 ∨ y ≥ (b.height : Int) then b
  else b.writeCell x y r s

/-- One row of `(*Buffer).Fill` (buffer.go:196-205): columns x0, x0+1, …
up to (exclusive) x1, all with 0 ≤ x0 and x1 ≤ width. -/
def Buffer.fillRow (b : Buffer) (y x0 x1 : Int) (ch : Char) (s : Style) : Buffer :=
  (List.range (x1 - x0).toNat).foldl
    (fun acc (i : Nat) => acc.writeCell (x0 + (i : Int)) y ch s) b

/-- Shallow embedding of `(*Buffer).Fill` (buffer.go:188-206): clip the
requested rectangle to the buffer bounds, then fill row by row. -/
def Buffer.Fill (b : Buffer) (r : Rect) (ch : Char) (s : Style) : Buffer :=
  let x0 : Int := max 0 r.x
  let y0 : Int := max 0 r.y
  let x1 : Int := min (b.width : Int) (r.x + r.width)
  let y1 : Int := min (b.height : Int) (r.y + r.height)
  (List.range (y1 - y0).toNat).foldl
    (fun acc (j : Nat) => acc.fillRow (y0 + (j : Int)) x0 x1 ch s) b

/-- Shallow embedding of `(*Buffer).Clear` (buffer.go:88-90). -/
def Buffer.Clear (b : Buffer) : Buffer :=
  b.Fill ⟨0, 0, (b.width : Int), (b.height : Int)⟩ ' ' defaultStyle

/-- Shallow embedding of `(*Buffer).MarkAllDirty` (buffer.go:362-368). -/
def Buffer.MarkAllDirty (b : Buffer) : Buffer :=
  { b with dirtyAll := true
           dirtyCount := b.width * b.height
           dirtyRect := ⟨0, 0, (b.width : Int), (b.height : Int)⟩
           dirtyListEnabled := false
           dirtyIndices := [] }

/-- Shallow embedding of `(*Buffer).advanceDirtyGen` (buffer.go:525-531):
increment the uint32 generation; on wraparound to 0 the stamp array is
cleared and the generation restarts at 1. -/
def Buffer.advanceDirtyGen (b : Buffer) : Buffer :=
  let g := (b.dirtyGen + 1) % 2 ^ 32
  if g = 0 then { b with dirtyStamp := fun _ => 0, dirtyGen := 1 }
  else { b with dirtyGen := g }

/-- Shallow embedding of `(*Buffer).ClearDirty` (buffer.go:371-378). -/
def Buffer.ClearDirty (b : Buffer) : Buffer :=
  ({ b with dirtyAll := false
            dirtyCount := 0
            dirtyRect := Rect.zero
            dirtyListEnabled := true
            dirtyIndices := [] } : Buffer).advanceDirtyGen

/-- Shallow embedding of `(*Buffer).IsDirty` (buffer.go:381-383). -/
def Buffer.IsDirty (b : Buffer) : Bool :=
  b.dirtyAll || decide (0 < b.dirtyCount)

/-- Shallow embedding of `(*Buffer).DirtyCount` (buffer.go:386-391). -/
def Buffer.DirtyCount (b : Buffer) : Nat :=
  if b.dirtyAll then b.width * b.height else b.dirtyCount

/-- Shallow embedding of `(*Buffer).DirtyRect` (buffer.go:395-400). -/
def Buffer.DirtyRect (b : Buffer) : Rect :=
  if b.dirtyAll then ⟨0, 0, (b.width : Int), (b.height : Int)⟩ else b.dirtyRect

/-- Shallow embedding of `(*Buffer).IsCellDirty` (buffer.go:403-411). -/
def Buffer.IsCellDirty (b : Buffer) (x y : Int) : Bool :=
  if x < 0 ∨ x ≥ (b.width : Int) ∨ y < 0 ∨ y ≥ (b.height : Int) then false
  else if b.dirtyAll then true
  else b.dirtyStamp (y.toNat * b.width + x.toNat) == b.dirtyGen

/-- Shallow embedding of `(*Buffer).Resize` (buffer.go:58-85): identical
dimensions return immediately; otherwise the cell array is reallocated with
the overlapping region copied, all dirty state is reset (the capacity-reuse
check on the old index slice only affects allocation, not contents), and
`MarkAllDirty` marks the whole buffer dirty. -/
def Buffer.Resize (b : Buffer) (w h : Nat) : Buffer :=
  if w = b.width ∧ h = b.height then b
  else
    let minW := min w b.width
    let minH := min h b.height
    ({ cells := fun i =>
        if i < w * h ∧ i / w < minH ∧ i % w < minW then
          b.cells ((i / w) * b.width + i % w)
        else Cell.zero
       width := w
       height := h
       dirtyStamp := fun _ => 0
       dirtyGen := 1
       dirtyAll := false
       dirtyCount := 0
       dirtyRect := Rect.zero
       dirtyIndices := []
       dirtyListCap := calcDirtyListCap (w * h)
       dirtyListEnabled := true } : Buffer).MarkAllDirty

/-! ### SetString

Go strings are byte arrays; `(*Buffer).SetString` (buffer.go:123-184) indexes
bytes in its ASCII fast path and iterates `(byteOffset, rune)` pairs in its
`range` loops, so the write column advances by the UTF-8 byte length of each
rune. The embedding models a (valid UTF-8) string as its list of runes and
recomputes the byte offsets. -/

/-- Byte length of a rune's UTF-8 encoding. -/
def utf8Len (c : Char) : Nat :=
  if c.toNat < 0x80 then 1
  else if c.toNat < 0x800 then 2
  else if c.toNat < 0x10000 then 3
  else 4

/-- The ASCII fast path of `SetString` (buffer.go:131-147): consume leading
runes while they are single-byte (first byte < 0x80) and the column is inside
the buffer, writing each changed cell; returns the updated buffer, the column
after the consumed prefix (x plus the bytes consumed, one per rune), and the
unconsumed suffix. -/
def setStringAscii (y : Int) (style : Style) :
    Buffer → Int → List Char → Buffer × Int × List Char
  | b, px, [] => (b, px, [])
  | b, px, c :: cs =>
    if px < (b.width : Int) then
      if 0x80 ≤ c.toNat then (b, px, c :: cs)
      else setStringAscii y style (b.writeCell px y c style) (px + 1) cs
    else (b, px, c :: cs)

/-- The rune loops of `SetString` (buffer.go:152-166 and 169-183): iterate the
runes with their cumulative byte offset j from a base column; columns left of
the buffer are skipped, the loop stops at the right edge, and every other
rune is written via the write-if-changed step. -/
def setStringRunes (y : Int) (style : Style) (base : Int) :
    Buffer → Nat → List Char → Buffer
  | b, _, [] => b
  | b, j, c :: cs =>
    let px : Int := base + (j : Int)
    if px < 0 then setStringRunes y style base b (j + utf8Len c) cs
    else if (b.width : Int) ≤ px then b
    else setStringRunes y style base (b.writeCell px y c style)
      (j + utf8Len c) cs

/-- Shallow embedding of `(*Buffer).SetString` (buffer.go:123-184). -/
def Buffer.SetString (b : Buffer) (x y : Int) (s : List Char)
    (style : Style) : Buffer :=
  if y < 0 ∨ (b.height : Int) ≤ y then b
  else if (b.width : Int) ≤ x then b
  else if 0 ≤ x then
    match setStringAscii y style b x s with
    | (b1, px, rest) =>
      if rest.isEmpty then b1
      else setStringRunes y style px b1 0 rest
  else setStringRunes y style x b 0 s

/-! ### Dirty iteration helpers

`ForEachDirtyCell` and `ForEachDirtySpan` take a callback in Go; the
embedding returns the list of arguments the callback is invoked with, in
invocation order. -/

/-- The bounding-rect fallback of `ForEachDirtyCell` (buffer.go:455-465):
scan the dirty rect's rows (clipped to the buffer), reporting stamped cells.
The loop variables are `Int` as in the source; the flat index is only
meaningful for the in-bounds rects the buffer invariant guarantees. -/
def Buffer.dirtyRectScan (b : Buffer) : List (Nat × Nat × Cell) :=
  let r := b.dirtyRect
  (List.range ((min (r.y + r.height) (b.height : Int) - r.y).toNat)).flatMap
    (fun (j : Nat) =>
      let y : Int := r.y + (j : Int)
      (List.range ((min (b.width : Int) (r.x + r.width) - r.x).toNat)).filterMap
        (fun (k : Nat) =>
          let x : Int := r.x + (k : Int)
          let idx := y.toNat * b.width + x.toNat
          if b.dirtyStamp idx = b.dirtyGen then
            some (x.toNat, y.toNat, b.cells idx)
          else none))

/-- Shallow embedding of `(*Buffer).ForEachDirtyCell` (buffer.go:415-466):
full scan when everything is dirty; nothing when nothing is dirty; linear
scan with stamp check when over half the cells are dirty; the sparse index
list when it is complete and the bounding rect is comparatively sparse;
otherwise the bounding-rect scan. -/
def Buffer.ForEachDirtyCell (b : Buffer) : List (Nat × Nat × Cell) :=
  if b.dirtyAll then
    (List.range b.height).flatMap (fun y =>
      (List.range b.width).map (fun x => (x, y, b.cells (y * b.width + x))))
  else if b.dirtyCount = 0 then []
  else if b.width * b.height / 2 < b.dirtyCount then
    (List.range b.height).flatMap (fun y =>
      (List.range b.width).filterMap (fun x =>
        let idx := y * b.width + x
        if b.dirtyStamp idx = b.dirtyGen then some (x, y, b.cells idx)
        else none))
  else if b.dirtyListEnabled = true ∧ b.dirtyIndices.length = b.dirtyCount ∧
      (b.dirtyCount : Int) * 2 < b.dirtyRect.width * b.dirtyRect.height then
    b.dirtyIndices.filterMap (fun idx =>
      if b.dirtyStamp idx = b.dirtyGen then
        let y := idx / b.width
        let x := idx - y * b.width
        some (x, y, b.cells idx)
      else none)
  else b.dirtyRectScan

/-- The inner while loop of `ForEachDirtySpan` (buffer.go:495-497): extend a
span to the right while cells stay stamped, returning the exclusive end
column. -/
def scanSpanEnd (stamp : Nat → Nat) (gen w yN : Nat) (xEnd : Int)
    (x : Int) : Int :=
  if h : x < xEnd ∧ stamp (yN * w + x.toNat) = gen then
    scanSpanEnd stamp gen w yN xEnd (x + 1)
  else x
termination_by (xEnd - x).toNat
decreasing_by omega

lemma scanSpanEnd_ge (stamp : Nat → Nat) (gen w yN : Nat) (xEnd x : Int) :
    x ≤ scanSpanEnd stamp gen w yN xEnd x := by
  rw [scanSpanEnd]
  split
  · rename_i h
    have := scanSpanEnd_ge stamp gen w yN xEnd (x + 1)
    omega
  · omega
termination_by (xEnd - x).toNat
decreasing_by omega

/-- The per-row span loop of `ForEachDirtySpan` (buffer.go:487-499):
alternate skipping unstamped cells and emitting `(startX, endX)` spans of
consecutive stamped cells, until the clipped right edge. -/
def rowSpans (stamp : Nat → Nat) (gen w yN : Nat) (xEnd : Int)
    (x : Int) : List (Nat × Nat) :=
  if hx : x < xEnd then
    if stamp (yN * w + x.toNat) = gen then
      (x.toNat, (scanSpanEnd stamp gen w yN xEnd (x + 1)).toNat) ::
        rowSpans stamp gen w yN xEnd (scanSpanEnd stamp gen w yN xEnd (x + 1))
    else rowSpans stamp gen w yN xEnd (x + 1)
  else []
termination_by (xEnd - x).toNat
decreasing_by
  · have := scanSpanEnd_ge stamp gen w yN xEnd (x + 1)
    omega
  · omega

/-- Shallow embedding of `(*Buffer).ForEachDirtySpan` (buffer.go:469-501). -/
def Buffer.ForEachDirtySpan (b : Buffer) : List (Nat × Nat × Nat) :=
  if b.dirtyAll then (List.range b.height).map (fun y => (y, 0, b.width))
  else if b.dirtyCount = 0 then []
  else if b.dirtyRect.width ≤ 0 ∨ b.dirtyRect.height ≤ 0 then []
  else
    let xEnd : Int := min (b.width : Int) (b.dirtyRect.x + b.dirtyRect.width)
    let yEnd : Int := min (b.height : Int) (b.dirtyRect.y + b.dirtyRect.height)
    (List.range ((yEnd - b.dirtyRect.y).toNat)).flatMap (fun (j : Nat) =>
      let y : Int := b.dirtyRect.y + (j : Int)
      (rowSpans b.dirtyStamp b.dirtyGen b.width y.toNat xEnd
          b.dirtyRect.x).map (fun sp => (y.toNat, sp.1, sp.2)))

/-! ### Frame lemmas: which fields each operation leaves unchanged -/

lemma Buffer.markCellDirty_frame (b : Buffer) (x y : Int) (idx : Nat) :
    (b.markCellDirty x y idx).cells = b.cells ∧
      (b.markCellDirty x y idx).width = b.width ∧
      (b.markCellDirty x y idx).height = b.height ∧
      (b.markCellDirty x y idx).dirtyGen = b.dirtyGen ∧
      (b.markCellDirty x y idx).dirtyListCap = b.dirtyListCap ∧
      (b.markCellDirty x y idx).dirtyAll = b.dirtyAll := by
  unfold Buffer.markCellDirty
  by_cases hall : b.dirtyAll
  · simp [hall]
  · by_cases hst : b.dirtyStamp idx = b.dirtyGen
    · simp [hall, hst]
    · by_cases hc : b.dirtyCount = 0 <;>
        simp only [hall, hst, hc, if_true, if_false, Bool.false_eq_true,
          not_false_eq_true, ne_eq, ite_true, ite_false, if_neg, if_pos] <;>
      split_ifs <;> simp [hc]

lemma Buffer.writeCell_frame (b : Buffer) (x y : Int) (r : Char) (s : Style) :
    (b.writeCell x y r s).width = b.width ∧
      (b.writeCell x y r s).height = b.height ∧
      (b.writeCell x y r s).dirtyGen = b.dirtyGen ∧
      (b.writeCell x y r s).dirtyListCap = b.dirtyListCap ∧
      (b.writeCell x y r s).dirtyAll = b.dirtyAll := by
  unfold Buffer.writeCell
  dsimp only []
  split_ifs with h
  · exact (Buffer.markCellDirty_frame _ x y _).2
  · exact ⟨rfl, rfl, rfl, rfl, rfl⟩

/-! ### Generic preservation of a predicate through the write loops

Every mutation of `Set`, `Fill` and `SetString` goes through `writeCell` at
in-bounds coordinates; these lemmas lift a predicate preserved by such
writes to the three public operations. -/

/-- Predicates preserved by every in-bounds write on a W×H buffer. -/
def PresWrite (W H : Nat) (P : Buffer → Prop) : Prop :=
  ∀ (b : Buffer) (x y : Int) (r : Char) (s : Style),
    0 ≤ x → x < (W : Int) → 0 ≤ y → y < (H : Int) → P b →
      P (b.writeCell x y r s)

lemma foldl_range_pres (P : Buffer → Prop) (f : Buffer → Nat → Buffer)
    (n : Nat) (hf : ∀ b i, i < n → P b → P (f b i)) :
    ∀ b, P b → P ((List.range n).foldl f b) := by
  induction n with
  | zero => intro b hb; exact hb
  | succ k ih =>
    intro b hb
    rw [List.range_succ, List.foldl_append]
    exact hf _ k (Nat.lt_succ_self k)
      (ih (fun b i hi => hf b i (Nat.lt_succ_of_lt hi)) b hb)

lemma dims_stable (W H : Nat) (P : Buffer → Prop)
    (hdim : ∀ b, P b → b.width = W ∧ b.height = H) :
    ∀ (b : Buffer) (x y : Int) (r : Char) (s : Style), P b →
      (b.writeCell x y r s).width = W ∧ (b.writeCell x y r s).height = H := by
  intro b x y r s hb
  obtain ⟨h1, h2, -⟩ := Buffer.writeCell_frame b x y r s
  obtain ⟨hw, hh⟩ := hdim b hb
  exact ⟨h1.trans hw, h2.trans hh⟩

lemma fillRow_pres (W H : Nat) (P : Buffer → Prop)
    (hdim : ∀ b, P b → b.width = W ∧ b.height = H)
    (hw : PresWrite W H P) (y x0 x1 : Int) (ch : Char) (st : Style)
    (hx0 : 0 ≤ x0) (hx1 : x1 ≤ (W : Int)) (hy : 0 ≤ y) (hyH : y < (H : Int)) :
    ∀ b, P b → P (b.fillRow y x0 x1 ch st) := by
  intro b hb
  unfold Buffer.fillRow
  refine foldl_range_pres P _ _ ?_ b hb
  intro b' i hi hb'
  have hx : x0 + (i : Int) < x1 := by omega
  exact hw b' _ y ch st (by omega) (by omega) hy hyH hb'

lemma Fill_pres (W H : Nat) (P : Buffer → Prop)
    (hdim : ∀ b, P b → b.width = W ∧ b.height = H)
    (hw : PresWrite W H P) (r : Rect) (ch : Char) (st : Style) :
    ∀ b, P b → P (b.Fill r ch st) := by
  intro b hb
  obtain ⟨hbw, hbh⟩ := hdim b hb
  simp only [Buffer.Fill]
  rw [hbw, hbh]
  refine foldl_range_pres P _ _ ?_ b hb
  intro b' j hj hb'
  have hy : max 0 r.y + (j : Int) < min (H : Int) (r.y + r.height) := by omega
  exact fillRow_pres W H P hdim hw _ _ _ ch st (by omega) (by omega)
    (by omega) (by omega) b' hb'

lemma setStringAscii_suffix_le (y : Int) (st : Style) :
    ∀ (cs : List Char) (b : Buffer) (px : Int),
      (setStringAscii y st b px cs).2.2.length ≤ cs.length := by
  intro cs
  induction cs with
  | nil => intro b px; simp [setStringAscii]
  | cons c cs ih =>
    intro b px
    simp only [setStringAscii]
    split_ifs with h1 h2
    · simp
    · exact Nat.le_succ_of_le (ih _ _)
    · simp

lemma setStringAscii_pres (W H : Nat) (P : Buffer → Prop)
    (hdim : ∀ b, P b → b.width = W ∧ b.height = H)
    (hw : PresWrite W H P) (y : Int) (st : Style)
    (hy : 0 ≤ y) (hyH : y < (H : Int)) :
    ∀ (cs : List Char) (b : Buffer) (px : Int), 0 ≤ px → P b →
      P (setStringAscii y st b px cs).1 ∧
        0 ≤ (setStringAscii y st b px cs).2.1 := by
  intro cs
  induction cs with
  | nil =>
    intro b px hpx hb
    exact ⟨hb, by simpa [setStringAscii] using hpx⟩
  | cons c cs ih =>
    intro b px hpx hb
    obtain ⟨hbw, hbh⟩ := hdim b hb
    simp only [setStringAscii]
    split_ifs with h1 h2
    · exact ⟨hb, hpx⟩
    · exact ih (b.writeCell px y c st) (px + 1) (by omega)
        (hw b px y c st hpx (by omega) hy hyH hb)
    · exact ⟨hb, hpx⟩

lemma setStringRunes_pres (W H : Nat) (P : Buffer → Prop)
    (hdim : ∀ b, P b → b.width = W ∧ b.height = H)
    (hw : PresWrite W H P) (y : Int) (st : Style) (base : Int)
    (hy : 0 ≤ y) (hyH : y < (H : Int)) :
    ∀ (cs : List Char) (b : Buffer) (j : Nat), P b →
      P (setStringRunes y st base b j cs) := by
  intro cs
  induction cs with
  | nil => intro b j hb; exact hb
  | cons c cs ih =>
    intro b j hb
    obtain ⟨hbw, hbh⟩ := hdim b hb
    simp only [setStringRunes]
    split_ifs with h1 h2
    · exact ih b (j + utf8Len c) hb
    · exact hb
    · exact ih _ (j + utf8Len c) (hw b _ y c st (by omega) (by omega)
        hy hyH hb)

lemma Set_pres (W H : Nat) (P : Buffer → Prop)
    (hdim : ∀ b, P b → b.width = W ∧ b.height = H)
    (hw : PresWrite W H P) (x y : Int) (r : Char) (st : Style) :
    ∀ b, P b → P (b.Set x y r st) := by
  intro b hb
  unfold Buffer.Set
  obtain ⟨hbw, hbh⟩ := hdim b hb
  split
  · exact hb
  · rename_i h
    rw [hbw, hbh] at h
    push_neg at h
    exact hw b x y r st (by omega) (by omega) (by omega) (by omega) hb

lemma SetString_pres (W H : Nat) (P : Buffer → Prop)
    (hdim : ∀ b, P b → b.width = W ∧ b.height = H)
    (hw : PresWrite W H P) (x y : Int) (s : List Char) (st : Style) :
    ∀ b, P b → P (b.SetString x y s st) := by
  intro b hb
  unfold Buffer.SetString
  obtain ⟨hbw, hbh⟩ := hdim b hb
  split
  · exact hb
  · split
    · exact hb
    · split
      · rename_i hny hnx hx0
        rw [hbh] at hny
        have hy : 0 ≤ y ∧ y < (H : Int) := by omega
        obtain ⟨h1, h3⟩ := setStringAscii_pres W H P hdim hw y st
          hy.1 hy.2 s b x hx0 hb
        cases hsplit : setStringAscii y st b x s with
        | mk b1 rest =>
          cases rest with
          | mk px tail =>
            simp only [hsplit]
            split
            · rw [hsplit] at h1; exact h1
            · rw [hsplit] at h1 h3
              exact setStringRunes_pres W H P hdim hw y st px hy.1 hy.2
                tail b1 0 h1
      · rename_i hny hnx hx0
        rw [hbh] at hny
        exact setStringRunes_pres W H P hdim hw y st x (by omega) (by omega)
          s b 0 hb

/-! ### Index arithmetic helpers -/

lemma idx_div (w x y : Nat) (hx : x < w) : (y * w + x) / w = y := by
  have h0 : 0 < w := by omega
  rw [Nat.add_comm, Nat.add_mul_div_right _ _ h0, Nat.div_eq_of_lt hx,
    Nat.zero_add]

lemma idx_mod (w x y : Nat) (hx : x < w) : (y * w + x) % w = x := by
  rw [Nat.add_comm, Nat.add_mul_mod_self_right, Nat.mod_eq_of_lt hx]

lemma idx_lt_total (w h x y : Nat) (hx : x < w) (hy : y < h) :
    y * w + x < w * h :=
  calc y * w + x < y * w + w := by omega
    _ = (y + 1) * w := by ring
    _ ≤ h * w := Nat.mul_le_mul_right w (Nat.succ_le_of_lt hy)
    _ = w * h := Nat.mul_comm h w

/-! ### Claim C4: Resize -/

/-- C4 counterexample: `Resize` with dimensions equal to the current ones
returns before marking anything dirty (buffer.go:59-61), so a clean 2×2
buffer resized to 2×2 stays clean, contradicting the claim that every
`Resize` call leaves the buffer fully dirty. -/
theorem resize_equal_dims_not_dirty :
    ((NewBuffer 2 2).Resize 2 2).IsDirty = false ∧
      ((NewBuffer 2 2).Resize 2 2).DirtyRect ≠ ⟨0, 0, 2, 2⟩ := by
  constructor
  · rfl
  · decide

/-- Field-wise description of a `Resize` to genuinely new dimensions. -/
lemma Buffer.Resize_spec (b : Buffer) (w h : Nat)
    (hne : ¬(w = b.width ∧ h = b.height)) :
    (b.Resize w h).width = w ∧ (b.Resize w h).height = h ∧
      (b.Resize w h).dirtyAll = true ∧ (b.Resize w h).dirtyIndices = [] ∧
      (b.Resize w h).dirtyListEnabled = false ∧
      (b.Resize w h).dirtyCount = w * h ∧
      (b.Resize w h).dirtyRect = ⟨0, 0, (w : Int), (h : Int)⟩ ∧
      (b.Resize w h).dirtyStamp = (fun _ => 0) ∧
      (b.Resize w h).dirtyGen = 1 ∧
      ∀ i, (b.Resize w h).cells i =
        if i < w * h ∧ i / w < min h b.height ∧ i % w < min w b.width then
          b.cells ((i / w) * b.width + i % w)
        else Cell.zero := by
  unfold Buffer.Resize
  rw [if_neg hne]
  exact ⟨rfl, rfl, rfl, rfl, rfl, rfl, rfl, rfl, rfl, fun i => rfl⟩

/-- C4 (amended). For every `Resize` call whose target dimensions differ
from the current ones, each cell in the overlap of the old and new
dimensions keeps its content, and the buffer is fully dirty (`IsDirty` true
and `DirtyRect` the whole new buffer); a call whose dimensions equal the
current dimensions returns immediately and leaves the buffer unchanged, in
particular without marking it dirty. -/
theorem Resize_preserves_overlap_marks_dirty (b : Buffer) (w h : Nat)
    (hne : ¬(w = b.width ∧ h = b.height)) :
    (∀ x y : Nat, x < min w b.width → y < min h b.height →
      (b.Resize w h).Get x y = b.Get x y) ∧
    (b.Resize w h).IsDirty = true ∧
    (b.Resize w h).DirtyRect = ⟨0, 0, (w : Int), (h : Int)⟩ ∧
    b.Resize b.width b.height = b := by
  obtain ⟨sw, sh, sall, -, -, -, srect, -, -, scells⟩ :=
    Buffer.Resize_spec b w h hne
  refine ⟨?_, ?_, ?_, by simp [Buffer.Resize]⟩
  · intro x y hx hy
    have hxw : x < w := lt_of_lt_of_le hx (min_le_left _ _)
    have hxb : x < b.width := lt_of_lt_of_le hx (min_le_right _ _)
    have hyh : y < h := lt_of_lt_of_le hy (min_le_left _ _)
    have hyb : y < b.height := lt_of_lt_of_le hy (min_le_right _ _)
    have hdiv : (y * w + x) / w = y := idx_div w x y hxw
    have hmod : (y * w + x) % w = x := idx_mod w x y hxw
    have hR : b.Get x y = b.cells (y * b.width + x) := by
      unfold Buffer.Get
      rw [if_neg (by push_cast; omega)]
      simp
    have hL : (b.Resize w h).Get x y = b.cells (y * b.width + x) := by
      unfold Buffer.Get
      rw [sw, sh, if_neg (by push_cast; omega)]
      simp only [Int.toNat_natCast]
      rw [scells (y * w + x), if_pos ⟨idx_lt_total w h x y hxw hyh,
        by rw [hdiv]; exact hy, by rw [hmod]; exact hx⟩, hdiv, hmod]
    rw [hL, hR]
  · unfold Buffer.IsDirty
    rw [sall]
    rfl
  · unfold Buffer.DirtyRect
    rw [sall, sw, sh]
    rfl

/-- Witness for C4 at the spec's own example: a 10×10 buffer with "X"
written at (2,2), resized to 5×5. -/
theorem Resize_preserves_overlap_witness :
    (¬((5 : Nat) = ((NewBuffer 10 10).Set 2 2 'X' ⟨0⟩).width ∧
        (5 : Nat) = ((NewBuffer 10 10).Set 2 2 'X' ⟨0⟩).height)) ∧
      ((∀ x y : Nat,
          x < min 5 ((NewBuffer 10 10).Set 2 2 'X' ⟨0⟩).width →
          y < min 5 ((NewBuffer 10 10).Set 2 2 'X' ⟨0⟩).height →
          (((NewBuffer 10 10).Set 2 2 'X' ⟨0⟩).Resize 5 5).Get x y =
            ((NewBuffer 10 10).Set 2 2 'X' ⟨0⟩).Get x y) ∧
        (((NewBuffer 10 10).Set 2 2 'X' ⟨0⟩).Resize 5 5).IsDirty = true ∧
        (((NewBuffer 10 10).Set 2 2 'X' ⟨0⟩).Resize 5 5).DirtyRect =
          ⟨0, 0, 5, 5⟩ ∧
        ((NewBuffer 10 10).Set 2 2 'X' ⟨0⟩).Resize
            ((NewBuffer 10 10).Set 2 2 'X' ⟨0⟩).width
            ((NewBuffer 10 10).Set 2 2 'X' ⟨0⟩).height =
          (NewBuffer 10 10).Set 2 2 'X' ⟨0⟩) :=
  ⟨by decide,
    Resize_preserves_overlap_marks_dirty ((NewBuffer 10 10).Set 2 2 'X' ⟨0⟩)
      5 5 (by decide)⟩

/-! ### Claim C6: sparse dirty-list threshold -/

lemma Buffer.markCellDirty_disabled (b : Buffer) (x y : Int) (idx : Nat)
    (h : b.dirtyListEnabled = false) :
    (b.markCellDirty x y idx).dirtyListEnabled = false ∧
      (b.markCellDirty x y idx).dirtyIndices = b.dirtyIndices := by
  unfold Buffer.markCellDirty
  by_cases hall : b.dirtyAll
  · simp [hall, h]
  · by_cases hst : b.dirtyStamp idx = b.dirtyGen
    · simp [hall, hst, h]
    · by_cases hc : b.dirtyCount = 0 <;> simp [hall, hst, hc, h]

lemma Buffer.writeCell_disabled (b : Buffer) (x y : Int) (r : Char)
    (s : Style) (h : b.dirtyListEnabled = false) :
    (b.writeCell x y r s).dirtyListEnabled = false ∧
      (b.writeCell x y r s).dirtyIndices = b.dirtyIndices := by
  unfold Buffer.writeCell
  dsimp only []
  split_ifs
  · exact Buffer.markCellDirty_disabled _ x y _ h
  · exact ⟨h, rfl⟩

/-- C6 counterexample: for area 10 the threshold is 10 (the code caps the
capacity at the total cell count after applying the 256 floor,
buffer.go:519-521), so the threshold is not "never below 256". -/
theorem dirty_list_cap_below_floor :
    0 < 10 ∧ calcDirtyListCap 10 = 10 ∧ 10 < 256 := by decide

/-- C6 (amended). For every buffer area A > 0 the sparse-list capacity
threshold is clamp(A/4, 256, 8192) further capped at A itself — so it never
exceeds 8192 and is at least 256 whenever A ≥ 256, but equals A (below 256)
for smaller buffers. Once a marking would push the dirty count past the
threshold, the sparse list is emptied and disabled; `Set`, `Fill` and
`SetString` never append to a disabled list; `ClearDirty` re-enables it, and
`Resize` (to different dimensions) resets it but leaves it disabled because
the resized buffer is marked fully dirty. -/
theorem dirty_list_threshold_amended :
    (∀ a : Nat, 0 < a →
      calcDirtyListCap a ≤ 8192 ∧ calcDirtyListCap a ≤ a ∧
        (256 ≤ a → 256 ≤ calcDirtyListCap a)) ∧
    (∀ (b : Buffer) (x y : Int) (idx : Nat),
      b.dirtyAll = false → b.dirtyListEnabled = true →
      b.dirtyStamp idx ≠ b.dirtyGen → b.dirtyListCap < b.dirtyCount + 1 →
      (b.markCellDirty x y idx).dirtyListEnabled = false ∧
        (b.markCellDirty x y idx).dirtyIndices = []) ∧
    (∀ (b : Buffer), b.dirtyListEnabled = false →
      (∀ (x y : Int) (r : Char) (st : Style),
        (b.Set x y r st).dirtyListEnabled = false ∧
          (b.Set x y r st).dirtyIndices = b.dirtyIndices) ∧
      (∀ (rc : Rect) (ch : Char) (st : Style),
        (b.Fill rc ch st).dirtyListEnabled = false ∧
          (b.Fill rc ch st).dirtyIndices = b.dirtyIndices) ∧
      (∀ (x y : Int) (s : List Char) (st : Style),
        (b.SetString x y s st).dirtyListEnabled = false ∧
          (b.SetString x y s st).dirtyIndices = b.dirtyIndices)) ∧
    (∀ b : Buffer, (b.ClearDirty).dirtyListEnabled = true ∧
      (b.ClearDirty).dirtyIndices = []) ∧
    (∀ (b : Buffer) (w h : Nat), ¬(w = b.width ∧ h = b.height) →
      (b.Resize w h).dirtyIndices = [] ∧ (b.Resize w h).dirtyAll = true ∧
        (b.Resize w h).dirtyListEnabled = false) := by
  refine ⟨?_, ?_, ?_, ?_, ?_⟩
  · intro a ha
    simp only [calcDirtyListCap]
    split_ifs <;> omega
  · intro b x y idx h1 h2 h3 h4
    have hcap : ¬(b.dirtyCount + 1 ≤ b.dirtyListCap) := by omega
    unfold Buffer.markCellDirty
    by_cases hc : b.dirtyCount = 0
    · simp [h1, h3, hc, h2]
      rw [if_neg (show ¬(1 ≤ b.dirtyListCap) by omega)]
      exact ⟨rfl, rfl⟩
    · simp [h1, h3, hc, h2, hcap]
  · intro b hdis
    have hP : ∀ b' : Buffer,
        (b'.dirtyListEnabled = false ∧ b'.dirtyIndices = b.dirtyIndices ∧
          b'.width = b.width ∧ b'.height = b.height) →
        b'.width = b.width ∧ b'.height = b.height :=
      fun b' h => ⟨h.2.2.1, h.2.2.2⟩
    have hw : PresWrite b.width b.height (fun b' =>
        b'.dirtyListEnabled = false ∧ b'.dirtyIndices = b.dirtyIndices ∧
          b'.width = b.width ∧ b'.height = b.height) := by
      intro b' x y r s _ _ _ _ hb'
      obtain ⟨e1, e2, e3, e4⟩ := hb'
      obtain ⟨f1, f2⟩ := Buffer.writeCell_disabled b' x y r s e1
      obtain ⟨g1, g2, -⟩ := Buffer.writeCell_frame b' x y r s
      exact ⟨f1, f2.trans e2, g1.trans e3, g2.trans e4⟩
    have h0 : b.dirtyListEnabled = false ∧ b.dirtyIndices = b.dirtyIndices ∧
        b.width = b.width ∧ b.height = b.height := ⟨hdis, rfl, rfl, rfl⟩
    refine ⟨?_, ?_, ?_⟩
    · intro x y r st
      have := Set_pres b.width b.height _ hP hw x y r st b h0
      exact ⟨this.1, this.2.1⟩
    · intro rc ch st
      have := Fill_pres b.width b.height _ hP hw rc ch st b h0
      exact ⟨this.1, this.2.1⟩
    · intro x y s st
      have := SetString_pres b.width b.height _ hP hw x y s st b h0
      exact ⟨this.1, this.2.1⟩
  · intro b
    simp only [Buffer.ClearDirty, Buffer.advanceDirtyGen]
    split_ifs <;> simp
  · intro b w h hne
    obtain ⟨-, -, sall, sidx, sen, -⟩ := Buffer.Resize_spec b w h hne
    exact ⟨sidx, sall, sen⟩

/-- Witness for C6 (amended) at concrete inputs: area 300 (threshold 256),
a 1×1 buffer about to overflow its threshold, and a disabled-list buffer
being written. -/
theorem dirty_list_threshold_amended_witness :
    ((0 < 300 ∧ calcDirtyListCap 300 ≤ 8192 ∧ calcDirtyListCap 300 ≤ 300 ∧
        (256 ≤ 300 → 256 ≤ calcDirtyListCap 300)) ∧
      (((NewBuffer 2 2).MarkAllDirty.ClearDirty).dirtyListEnabled = true ∧
        ((NewBuffer 2 2).MarkAllDirty.ClearDirty).dirtyIndices = []) ∧
      (¬((3 : Nat) = (NewBuffer 2 2).width ∧ (3 : Nat) = (NewBuffer 2 2).height) ∧
        ((NewBuffer 2 2).Resize 3 3).dirtyIndices = [] ∧
        ((NewBuffer 2 2).Resize 3 3).dirtyAll = true ∧
        ((NewBuffer 2 2).Resize 3 3).dirtyListEnabled = false)) :=
  ⟨⟨by decide, (dirty_list_threshold_amended.1 300 (by decide)).1,
      (dirty_list_threshold_amended.1 300 (by decide)).2.1,
      (dirty_list_threshold_amended.1 300 (by decide)).2.2⟩,
    dirty_list_threshold_amended.2.2.2.1 (NewBuffer 2 2),
    ⟨by decide,
      dirty_list_threshold_amended.2.2.2.2 (NewBuffer 2 2) 3 3 (by decide)⟩⟩

/-! ### Claim C10: out-of-bounds totality at the Buffer interface -/

lemma Buffer.markCellDirty_stamp_outside (b : Buffer) (x y : Int)
    (idx i : Nat) (hi : i ≠ idx) :
    (b.markCellDirty x y idx).dirtyStamp i = b.dirtyStamp i := by
  unfold Buffer.markCellDirty
  by_cases hall : b.dirtyAll
  · simp [hall]
  · by_cases hst : b.dirtyStamp idx = b.dirtyGen
    · simp [hall, hst]
    · by_cases hc : b.dirtyCount = 0 <;>
        simp [hall, hst, hc, Function.update_noteq hi] <;>
      split_ifs <;> simp [Function.update_noteq hi]

lemma Buffer.writeCell_outside (b : Buffer) (x y : Int) (r : Char)
    (s : Style) (i : Nat) (hi : i ≠ y.toNat * b.width + x.toNat) :
    (b.writeCell x y r s).cells i = b.cells i ∧
      (b.writeCell x y r s).dirtyStamp i = b.dirtyStamp i := by
  unfold Buffer.writeCell
  dsimp only []
  split_ifs
  · constructor
    · rw [(Buffer.markCellDirty_frame _ x y _).1]
      exact Function.update_noteq hi _ _
    · exact Buffer.markCellDirty_stamp_outside _ x y _ i hi
  · exact ⟨rfl, rfl⟩

/-- C10. Out-of-bounds totality: `Get` outside the bounds returns the blank
cell (space rune, zero style) and `Set` outside the bounds is a no-op; and
`Fill`, `SetString` and `Set` clip to the buffer bounds — no operation
touches the cell or stamp arrays at any index at or beyond width*height. -/
theorem buffer_bounds_totality (b : Buffer) (x y : Int) (r : Char)
    (st : Style) (rc : Rect) (s : List Char) :
    ((x < 0 ∨ (b.width : Int) ≤ x ∨ y < 0 ∨ (b.height : Int) ≤ y) →
      b.Get x y = ⟨' ', ⟨0⟩⟩ ∧ b.Set x y r st = b) ∧
    (∀ i, b.width * b.height ≤ i →
      (b.Fill rc r st).cells i = b.cells i ∧
        (b.Fill rc r st).dirtyStamp i = b.dirtyStamp i ∧
        (b.SetString x y s st).cells i = b.cells i ∧
        (b.SetString x y s st).dirtyStamp i = b.dirtyStamp i ∧
        (b.Set x y r st).cells i = b.cells i ∧
        (b.Set x y r st).dirtyStamp i = b.dirtyStamp i) := by
  have hoob : ∀ i, b.width * b.height ≤ i →
      ∀ b' : Buffer,
        (b'.cells i = b.cells i ∧ b'.dirtyStamp i = b.dirtyStamp i ∧
        b'.width = b.width ∧ b'.height = b.height) →
      ∀ (x' y' : Int) (r' : Char) (st' : Style), 0 ≤ x' →
        x' < (b.width : Int) → 0 ≤ y' → y' < (b.height : Int) →
        ((b'.writeCell x' y' r' st').cells i = b.cells i ∧
          (b'.writeCell x' y' r' st').dirtyStamp i = b.dirtyStamp i ∧
          (b'.writeCell x' y' r' st').width = b.width ∧
          (b'.writeCell x' y' r' st').height = b.height) := by
    intro i hi b' hb' x' y' r' st' hx0 hxw hy0 hyh
    obtain ⟨e1, e2, e3, e4⟩ := hb'
    have hxN : x'.toNat < b.width := by omega
    have hyN : y'.toNat < b.height := by omega
    have hidx : y'.toNat * b'.width + x'.toNat < b.width * b.height := by
      rw [e3]
      exact idx_lt_total _ _ _ _ hxN hyN
    obtain ⟨f1, f2⟩ := Buffer.writeCell_outside b' x' y' r' st' i (by omega)
    obtain ⟨g1, g2, -⟩ := Buffer.writeCell_frame b' x' y' r' st'
    exact ⟨f1.trans e1, f2.trans e2, g1.trans e3, g2.trans e4⟩
  constructor
  · intro h
    constructor
    · unfold Buffer.Get
      rw [if_pos (by omega)]
    · unfold Buffer.Set
      rw [if_pos (by omega)]
  · intro i hi
    have hP : ∀ b' : Buffer,
        (b'.cells i = b.cells i ∧ b'.dirtyStamp i = b.dirtyStamp i ∧
          b'.width = b.width ∧ b'.height = b.height) →
        b'.width = b.width ∧ b'.height = b.height :=
      fun b' h => ⟨h.2.2.1, h.2.2.2⟩
    have hw : PresWrite b.width b.height (fun b' =>
        b'.cells i = b.cells i ∧ b'.dirtyStamp i = b.dirtyStamp i ∧
          b'.width = b.width ∧ b'.height = b.height) := by
      intro b' x' y' r' st' hx0 hxw hy0 hyh hb'
      exact hoob i hi b' hb' x' y' r' st' hx0 hxw hy0 hyh
    have h0 : b.cells i = b.cells i ∧ b.dirtyStamp i = b.dirtyStamp i ∧
        b.width = b.width ∧ b.height = b.height := ⟨rfl, rfl, rfl, rfl⟩
    have hfill := Fill_pres b.width b.height _ hP hw rc r st b h0
    have hstr := SetString_pres b.width b.height _ hP hw x y s st b h0
    have hset := Set_pres b.width b.height _ hP hw x y r st b h0
    exact ⟨hfill.1, hfill.2.1, hstr.1, hstr.2.1, hset.1, hset.2.1⟩

/-- Witness for C10 at concrete inputs: a 2×2 buffer probed at (-1, 5), a
fill rectangle hanging over all four edges, and array index 7 ≥ 4. -/
theorem buffer_bounds_totality_witness :
    (((-1 : Int) < 0 ∨ ((NewBuffer 2 2).width : Int) ≤ -1 ∨ (5 : Int) < 0 ∨
        ((NewBuffer 2 2).height : Int) ≤ 5) ∧
      ((NewBuffer 2 2).Get (-1) 5 = ⟨' ', ⟨0⟩⟩ ∧
        (NewBuffer 2 2).Set (-1) 5 'Q' ⟨1⟩ = NewBuffer 2 2)) ∧
    ((NewBuffer 2 2).width * (NewBuffer 2 2).height ≤ 7 ∧
      (((NewBuffer 2 2).Fill ⟨-3, -3, 10, 10⟩ 'Q' ⟨1⟩).cells 7 =
          (NewBuffer 2 2).cells 7 ∧
        ((NewBuffer 2 2).Fill ⟨-3, -3, 10, 10⟩ 'Q' ⟨1⟩).dirtyStamp 7 =
          (NewBuffer 2 2).dirtyStamp 7 ∧
        ((NewBuffer 2 2).SetString (-1) 5 ['a', 'b'] ⟨1⟩).cells 7 =
          (NewBuffer 2 2).cells 7 ∧
        ((NewBuffer 2 2).SetString (-1) 5 ['a', 'b'] ⟨1⟩).dirtyStamp 7 =
          (NewBuffer 2 2).dirtyStamp 7 ∧
        ((NewBuffer 2 2).Set (-1) 5 'Q' ⟨1⟩).cells 7 =
          (NewBuffer 2 2).cells 7 ∧
        ((NewBuffer 2 2).Set (-1) 5 'Q' ⟨1⟩).dirtyStamp 7 =
          (NewBuffer 2 2).dirtyStamp 7)) :=
  ⟨⟨by decide,
      (buffer_bounds_totality (NewBuffer 2 2) (-1) 5 'Q' ⟨1⟩ ⟨-3, -3, 10, 10⟩
          ['a', 'b']).1 (by decide)⟩,
    ⟨by decide,
      (buffer_bounds_totality (NewBuffer 2 2) (-1) 5 'Q' ⟨1⟩ ⟨-3, -3, 10, 10⟩
          ['a', 'b']).2 7 (by decide)⟩⟩

/-! ### The dirty-tracking invariant (claim C9) -/

/-- The set of cell indices stamped with the current generation: the cells
the stamp array considers dirty. -/
def Buffer.stamped (b : Buffer) : Finset Nat :=
  (Finset.range (b.width * b.height)).filter
    (fun i => b.dirtyStamp i = b.dirtyGen)

/-- Membership of a coordinate pair in a rect. -/
def Rect.contains (r : Rect) (x y : Int) : Prop :=
  r.x ≤ x ∧ x < r.x + r.width ∧ r.y ≤ y ∧ y < r.y + r.height

instance (r : Rect) (x y : Int) : Decidable (r.contains x y) := by
  unfold Rect.contains
  infer_instance

/-- The internal consistency invariant of the dirty-tracking state,
maintained by every buffer operation. -/
structure BufInv (b : Buffer) : Prop where
  genPos : 1 ≤ b.dirtyGen
  genLt : b.dirtyGen < 2 ^ 32
  stampLe : ∀ i, b.dirtyStamp i ≤ b.dirtyGen
  countCard : b.dirtyAll = false → b.dirtyCount = b.stamped.card
  stampInRect : b.dirtyAll = false → ∀ i ∈ b.stamped,
    b.dirtyRect.contains ((i % b.width : Nat) : Int) ((i / b.width : Nat) : Int)
  rectBounds : b.dirtyAll = false → 0 < b.dirtyCount →
    0 ≤ b.dirtyRect.x ∧ 0 ≤ b.dirtyRect.y ∧ 0 < b.dirtyRect.width ∧
      0 < b.dirtyRect.height ∧ b.dirtyRect.x + b.dirtyRect.width ≤ (b.width : Int) ∧
      b.dirtyRect.y + b.dirtyRect.height ≤ (b.height : Int)
  listSpec : b.dirtyAll = false → b.dirtyListEnabled = true →
    b.dirtyIndices.Nodup ∧ ∀ i : Nat, i ∈ b.dirtyIndices ↔ i ∈ b.stamped

lemma Rect.expandX_spec (r : Rect) (x : Int) (hw : 0 ≤ r.width) :
    (r.expandX x).y = r.y ∧ (r.expandX x).height = r.height ∧
      (r.expandX x).x ≤ r.x ∧ (r.expandX x).x ≤ x ∧
      r.x + r.width ≤ (r.expandX x).x + (r.expandX x).width ∧
      x + 1 ≤ (r.expandX x).x + (r.expandX x).width := by
  unfold Rect.expandX
  split_ifs <;>
    refine ⟨rfl, rfl, ?_, ?_, ?_, ?_⟩ <;>
    first
      | (dsimp only []; omega)
      | omega

lemma Rect.expandY_spec (r : Rect) (y : Int) (hh : 0 ≤ r.height) :
    (r.expandY y).x = r.x ∧ (r.expandY y).width = r.width ∧
      (r.expandY y).y ≤ r.y ∧ (r.expandY y).y ≤ y ∧
      r.y + r.height ≤ (r.expandY y).y + (r.expandY y).height ∧
      y + 1 ≤ (r.expandY y).y + (r.expandY y).height := by
  unfold Rect.expandY
  split_ifs <;>
    refine ⟨rfl, rfl, ?_, ?_, ?_, ?_⟩ <;>
    first
      | (dsimp only []; omega)
      | omega

lemma Rect.expandX_nonneg (r : Rect) (x : Int) (hx : 0 ≤ x) (hr : 0 ≤ r.x) :
    0 ≤ (r.expandX x).x := by
  unfold Rect.expandX
  split_ifs <;> first | (dsimp only []; omega) | omega

lemma Rect.expandX_le (r : Rect) (x W : Int) (h1 : x < W)
    (h2 : r.x + r.width ≤ W) :
    (r.expandX x).x + (r.expandX x).width ≤ W := by
  unfold Rect.expandX
  split_ifs <;> first | (dsimp only []; omega) | omega

lemma Rect.expandY_nonneg (r : Rect) (y : Int) (hy : 0 ≤ y) (hr : 0 ≤ r.y) :
    0 ≤ (r.expandY y).y := by
  unfold Rect.expandY
  split_ifs <;> first | (dsimp only []; omega) | omega

lemma Rect.expandY_le (r : Rect) (y H : Int) (h1 : y < H)
    (h2 : r.y + r.height ≤ H) :
    (r.expandY y).y + (r.expandY y).height ≤ H := by
  unfold Rect.expandY
  split_ifs <;> first | (dsimp only []; omega) | omega

/-- Rect expansion only grows the rect. -/
lemma Rect.expand_mono (r : Rect) (x y a c : Int) (hw : 0 ≤ r.width)
    (hh : 0 ≤ r.height) (h : r.contains a c) :
    (r.expand x y).contains a c := by
  obtain ⟨f1, f2, f3, f4, f5, f6⟩ := Rect.expandX_spec r x hw
  obtain ⟨e1, e2, e3, e4, e5, e6⟩ :=
    Rect.expandY_spec (r.expandX x) y (by omega)
  unfold Rect.contains at h ⊢
  unfold Rect.expand
  omega

/-- Rect expansion covers the expanded-to point. -/
lemma Rect.expand_self (r : Rect) (x y : Int) (hw : 0 ≤ r.width)
    (hh : 0 ≤ r.height) : (r.expand x y).contains x y := by
  obtain ⟨f1, f2, f3, f4, f5, f6⟩ := Rect.expandX_spec r x hw
  obtain ⟨e1, e2, e3, e4, e5, e6⟩ :=
    Rect.expandY_spec (r.expandX x) y (by omega)
  unfold Rect.contains
  unfold Rect.expand
  omega

/-- Rect expansion to an in-bounds point keeps an in-bounds rect in
bounds. -/
lemma Rect.expand_bounds (r : Rect) (x y W H : Int)
    (h1 : 0 ≤ r.x) (h2 : 0 ≤ r.y) (hw : 0 < r.width) (hh : 0 < r.height)
    (h3 : r.x + r.width ≤ W) (h4 : r.y + r.height ≤ H)
    (hx : 0 ≤ x) (hxW : x < W) (hy : 0 ≤ y) (hyH : y < H) :
    0 ≤ (r.expand x y).x ∧ 0 ≤ (r.expand x y).y ∧
      0 < (r.expand x y).width ∧ 0 < (r.expand x y).height ∧
      (r.expand x y).x + (r.expand x y).width ≤ W ∧
      (r.expand x y).y + (r.expand x y).height ≤ H := by
  obtain ⟨f1, f2, f3, f4, f5, f6⟩ := Rect.expandX_spec r x (by omega)
  obtain ⟨e1, e2, e3, e4, e5, e6⟩ :=
    Rect.expandY_spec (r.expandX x) y (by omega)
  have g1 := Rect.expandX_nonneg r x hx h1
  have g2 := Rect.expandX_le r x W hxW h3
  have g3 := Rect.expandY_nonneg (r.expandX x) y hy (by omega)
  have g4 := Rect.expandY_le (r.expandX x) y H hyH (by omega)
  unfold Rect.expand
  omega

/-- Explicit description of `markCellDirty` in the case that actually marks:
not everything dirty yet, and the cell not yet stamped this generation. -/
lemma Buffer.markCellDirty_spec (b : Buffer) (x y : Int) (idx : Nat)
    (hall : b.dirtyAll = false) (hst : b.dirtyStamp idx ≠ b.dirtyGen) :
    b.markCellDirty x y idx =
      { b with
        dirtyStamp := Function.update b.dirtyStamp idx b.dirtyGen
        dirtyCount := b.dirtyCount + 1
        dirtyRect :=
          if b.dirtyCount = 0 then ⟨x, y, 1, 1⟩ else b.dirtyRect.expand x y
        dirtyListEnabled :=
          b.dirtyListEnabled && decide (b.dirtyCount + 1 ≤ b.dirtyListCap)
        dirtyIndices :=
          if b.dirtyListEnabled then
            if b.dirtyCount + 1 ≤ b.dirtyListCap then b.dirtyIndices ++ [idx]
            else []
          else b.dirtyIndices } := by
  unfold Buffer.markCellDirty
  by_cases hc : b.dirtyCount = 0 <;> by_cases hen : b.dirtyListEnabled <;>
    by_cases hfit : b.dirtyCount + 1 ≤ b.dirtyListCap <;>
    simp [hall, hst, hc, hen, hfit] <;>
    (try split_ifs) <;> simp_all

lemma filter_update_eq_insert (b : Buffer) (idx : Nat)
    (hidx : idx < b.width * b.height) :
    ((Finset.range (b.width * b.height)).filter
        (fun i => Function.update b.dirtyStamp idx b.dirtyGen i =
          b.dirtyGen)) = insert idx b.stamped := by
  ext i
  simp only [Buffer.stamped, Finset.mem_filter, Finset.mem_range,
    Finset.mem_insert, Function.update_apply]
  by_cases h : i = idx
  · subst h
    simp [hidx]
  · simp [h]

lemma not_mem_stamped (b : Buffer) (idx : Nat)
    (hst : b.dirtyStamp idx ≠ b.dirtyGen) : idx ∉ b.stamped := by
  simp [Buffer.stamped, hst]

/-- The marking case of `markCellDirty` preserves the invariant. -/
lemma BufInv.mark_aux (b : Buffer) (hb : BufInv b) (x y : Int) (idx : Nat)
    (hx0 : 0 ≤ x) (hxw : x < (b.width : Int)) (hy0 : 0 ≤ y)
    (hyh : y < (b.height : Int)) (hidx : idx = y.toNat * b.width + x.toNat)
    (hall : b.dirtyAll = false) (hst : b.dirtyStamp idx ≠ b.dirtyGen) :
    BufInv { b with
      dirtyStamp := Function.update b.dirtyStamp idx b.dirtyGen
      dirtyCount := b.dirtyCount + 1
      dirtyRect :=
        if b.dirtyCount = 0 then ⟨x, y, 1, 1⟩ else b.dirtyRect.expand x y
      dirtyListEnabled :=
        b.dirtyListEnabled && decide (b.dirtyCount + 1 ≤ b.dirtyListCap)
      dirtyIndices :=
        if b.dirtyListEnabled then
          if b.dirtyCount + 1 ≤ b.dirtyListCap then b.dirtyIndices ++ [idx]
          else []
        else b.dirtyIndices } := by
  have hxN : x.toNat < b.width := by omega
  have hyN : y.toNat < b.height := by omega
  have hlt : idx < b.width * b.height := by
    rw [hidx]; exact idx_lt_total _ _ _ _ hxN hyN
  have hmod : idx % b.width = x.toNat := by rw [hidx]; exact idx_mod _ _ _ hxN
  have hdiv : idx / b.width = y.toNat := by rw [hidx]; exact idx_div _ _ _ hxN
  have hxcast : ((x.toNat : Nat) : Int) = x := Int.toNat_of_nonneg hx0
  have hycast : ((y.toNat : Nat) : Int) = y := Int.toNat_of_nonneg hy0
  have hnm : idx ∉ b.stamped := not_mem_stamped b idx hst
  have hstamped :
      Buffer.stamped { b with
        dirtyStamp := Function.update b.dirtyStamp idx b.dirtyGen
        dirtyCount := b.dirtyCount + 1
        dirtyRect :=
          if b.dirtyCount = 0 then ⟨x, y, 1, 1⟩ else b.dirtyRect.expand x y
        dirtyListEnabled :=
          b.dirtyListEnabled && decide (b.dirtyCount + 1 ≤ b.dirtyListCap)
        dirtyIndices :=
          if b.dirtyListEnabled then
            if b.dirtyCount + 1 ≤ b.dirtyListCap then
              b.dirtyIndices ++ [idx]
            else []
          else b.dirtyIndices } = insert idx b.stamped := by
    unfold Buffer.stamped
    exact filter_update_eq_insert b idx hlt
  constructor
  · exact hb.genPos
  · exact hb.genLt
  · intro i
    dsimp only []
    rw [Function.update_apply]
    split_ifs
    · exact le_refl _
    · exact hb.stampLe i
  · intro _
    dsimp only []
    rw [hstamped, Finset.card_insert_of_not_mem hnm, hb.countCard hall]
  · intro _ i hi
    rw [hstamped] at hi
    dsimp only []
    rcases Finset.mem_insert.mp hi with hi | hi
    · subst hi
      rw [hmod, hdiv, hxcast, hycast]
      by_cases hc : b.dirtyCount = 0
      · rw [if_pos hc]
        unfold Rect.contains
        dsimp only []
        omega
      · rw [if_neg hc]
        obtain ⟨-, -, g3, g4, -, -⟩ := hb.rectBounds hall (by omega)
        exact Rect.expand_self b.dirtyRect x y (by omega) (by omega)
    · by_cases hc : b.dirtyCount = 0
      · exfalso
        have : b.stamped.card = 0 := (hb.countCard hall).symm.trans hc
        rw [Finset.card_eq_zero.mp this] at hi
        exact absurd hi (Finset.not_mem_empty i)
      · rw [if_neg hc]
        obtain ⟨-, -, g3, g4, -, -⟩ := hb.rectBounds hall (by omega)
        exact Rect.expand_mono b.dirtyRect x y _ _ (by omega) (by omega)
          (hb.stampInRect hall i hi)
  · intro _ _
    dsimp only []
    by_cases hc : b.dirtyCount = 0
    · rw [if_pos hc]
      dsimp only []
      omega
    · rw [if_neg hc]
      obtain ⟨g1, g2, g3, g4, g5, g6⟩ := hb.rectBounds hall (by omega)
      exact Rect.expand_bounds b.dirtyRect x y _ _ g1 g2 g3 g4 g5 g6
        hx0 hxw hy0 hyh
  · intro _ hen
    dsimp only [] at hen
    rw [Bool.and_eq_true, decide_eq_true_eq] at hen
    obtain ⟨hen1, hen2⟩ := hen
    obtain ⟨hnd, hmem⟩ := hb.listSpec hall hen1
    constructor
    · dsimp only []
      rw [if_pos hen1, if_pos hen2, List.nodup_append]
      refine ⟨hnd, List.nodup_singleton idx, ?_⟩
      intro a ha hsing
      rw [List.mem_singleton] at hsing
      subst hsing
      exact hnm ((hmem a).mp ha)
    · intro i
      dsimp only []
      rw [hstamped, if_pos hen1, if_pos hen2, List.mem_append,
        List.mem_singleton, Finset.mem_insert, hmem i]
      tauto

/-- `markCellDirty` called with in-bounds coordinates and the matching index
preserves the invariant. -/
lemma BufInv.markCellDirty (b : Buffer) (hb : BufInv b) (x y : Int)
    (hx0 : 0 ≤ x) (hxw : x < (b.width : Int)) (hy0 : 0 ≤ y)
    (hyh : y < (b.height : Int)) :
    BufInv (b.markCellDirty x y (y.toNat * b.width + x.toNat)) := by
  by_cases hall : b.dirtyAll = true
  · have h : b.markCellDirty x y (y.toNat * b.width + x.toNat) = b := by
      unfold Buffer.markCellDirty
      simp [hall]
    rwa [h]
  · rw [Bool.not_eq_true] at hall
    by_cases hst : b.dirtyStamp (y.toNat * b.width + x.toNat) = b.dirtyGen
    · have h : b.markCellDirty x y (y.toNat * b.width + x.toNat) = b := by
        unfold Buffer.markCellDirty
        simp [hall, hst]
      rwa [h]
    · rw [Buffer.markCellDirty_spec b x y _ hall hst]
      exact BufInv.mark_aux b hb x y _ hx0 hxw hy0 hyh rfl hall hst

/-- `writeCell` at in-bounds coordinates preserves the invariant (the cell
array itself does not occur in the invariant). -/
lemma BufInv.writeCell (b : Buffer) (hb : BufInv b) (x y : Int) (r : Char)
    (s : Style) (hx0 : 0 ≤ x) (hxw : x < (b.width : Int)) (hy0 : 0 ≤ y)
    (hyh : y < (b.height : Int)) : BufInv (b.writeCell x y r s) := by
  unfold Buffer.writeCell
  dsimp only []
  split_ifs
  · have hbc : BufInv { b with cells := Function.update b.cells (y.toNat * b.width + x.toNat) (⟨r, s⟩ : Cell) } :=
      ⟨hb.genPos, hb.genLt, hb.stampLe, hb.countCard, hb.stampInRect,
        hb.rectBounds, hb.listSpec⟩
    exact BufInv.markCellDirty _ hbc x y hx0 hxw hy0 hyh
  · exact hb

lemma BufInv.newBuffer (w h : Nat) : BufInv (NewBuffer w h) := by
  constructor
  · exact le_refl 1
  · show (1 : Nat) < 4294967296
    norm_num
  · intro i
    exact Nat.zero_le _
  · intro _
    simp [Buffer.stamped, NewBuffer]
  · intro _ i hi
    simp [Buffer.stamped, NewBuffer] at hi
  · intro _ hcnt
    simp [NewBuffer] at hcnt
  · intro _ _
    refine ⟨List.nodup_nil, ?_⟩
    intro i
    simp [Buffer.stamped, NewBuffer]

lemma BufInv.markAllDirty (b : Buffer) (hb : BufInv b) :
    BufInv b.MarkAllDirty := by
  constructor
  · exact hb.genPos
  · exact hb.genLt
  · exact hb.stampLe
  · intro h
    exact absurd h (by simp [Buffer.MarkAllDirty])
  · intro h
    exact absurd h (by simp [Buffer.MarkAllDirty])
  · intro h
    exact absurd h (by simp [Buffer.MarkAllDirty])
  · intro h
    exact absurd h (by simp [Buffer.MarkAllDirty])

lemma BufInv.clearDirty (b : Buffer) (hb : BufInv b) :
    BufInv b.ClearDirty := by
  have hgenLt := hb.genLt
  unfold Buffer.ClearDirty Buffer.advanceDirtyGen
  simp only []
  split_ifs with hg
  · constructor
    · exact le_refl 1
    · norm_num
    · intro i
      exact Nat.zero_le _
    · intro _
      simp [Buffer.stamped]
    · intro _ i hi
      simp [Buffer.stamped] at hi
    · intro _ hcnt
      simp at hcnt
    · intro _ _
      refine ⟨List.nodup_nil, ?_⟩
      intro i
      simp [Buffer.stamped]
  · have hne : ∀ i, b.dirtyStamp i ≠ (b.dirtyGen + 1) % 2 ^ 32 := by
      intro i
      have h1 := hb.stampLe i
      omega
    have hempty : Buffer.stamped { b with
        dirtyAll := false, dirtyCount := 0, dirtyRect := Rect.zero,
        dirtyListEnabled := true, dirtyIndices := [],
        dirtyGen := (b.dirtyGen + 1) % 2 ^ 32 } = ∅ := by
      unfold Buffer.stamped
      refine Finset.filter_eq_empty_iff.mpr ?_
      intro i _
      exact hne i
    constructor
    · dsimp only []
      omega
    · dsimp only []
      omega
    · intro i
      dsimp only []
      have h1 := hb.stampLe i
      omega
    · intro _
      rw [hempty]
      rfl
    · intro _ i hi
      rw [hempty] at hi
      exact absurd hi (Finset.not_mem_empty i)
    · intro _ hcnt
      simp at hcnt
    · intro _ _
      refine ⟨List.nodup_nil, ?_⟩
      intro i
      rw [hempty]
      simp

lemma BufInv.resize (b : Buffer) (hb : BufInv b) (w h : Nat) :
    BufInv (b.Resize w h) := by
  by_cases heq : w = b.width ∧ h = b.height
  · have hres : b.Resize w h = b := by
      unfold Buffer.Resize
      rw [if_pos heq]
    rwa [hres]
  · obtain ⟨-, -, sall, -, -, -, -, sstamp, sgen, -⟩ :=
      Buffer.Resize_spec b w h heq
    constructor
    · rw [sgen]
    · rw [sgen]
      norm_num
    · intro i
      rw [sstamp, sgen]
      exact Nat.zero_le _
    · intro hcon
      rw [sall] at hcon
      cases hcon
    · intro hcon
      rw [sall] at hcon
      cases hcon
    · intro hcon
      rw [sall] at hcon
      cases hcon
    · intro hcon
      rw [sall] at hcon
      cases hcon

lemma BufInv_pres_write (W H : Nat) : PresWrite W H (fun b' =>
    BufInv b' ∧ b'.width = W ∧ b'.height = H) := by
  intro b' x y r s hx0 hxw hy0 hyh hb'
  obtain ⟨hbi, hbw, hbh⟩ := hb'
  obtain ⟨f1, f2, -⟩ := Buffer.writeCell_frame b' x y r s
  exact ⟨BufInv.writeCell b' hbi x y r s hx0 (by rw [hbw]; exact hxw) hy0
    (by rw [hbh]; exact hyh), f1.trans hbw, f2.trans hbh⟩

/-- Buffers reachable by any sequence of the public mutating operations the
claim lists, starting from `NewBuffer`. -/
inductive Reachable : Buffer → Prop
  | new (w h : Nat) : Reachable (NewBuffer w h)
  | set (b : Buffer) (x y : Int) (r : Char) (s : Style) :
      Reachable b → Reachable (b.Set x y r s)
  | setString (b : Buffer) (x y : Int) (s : List Char) (st : Style) :
      Reachable b → Reachable (b.SetString x y s st)
  | fill (b : Buffer) (rc : Rect) (ch : Char) (st : Style) :
      Reachable b → Reachable (b.Fill rc ch st)
  | markAllDirty (b : Buffer) : Reachable b → Reachable b.MarkAllDirty
  | clearDirty (b : Buffer) : Reachable b → Reachable b.ClearDirty
  | resize (b : Buffer) (w h : Nat) : Reachable b → Reachable (b.Resize w h)

/-- Every reachable buffer satisfies the dirty-tracking invariant. -/
lemma reachable_bufInv {b : Buffer} (hr : Reachable b) : BufInv b := by
  induction hr with
  | new w h => exact BufInv.newBuffer w h
  | set b x y r s hr ih =>
    exact (Set_pres b.width b.height _ (fun b' h => ⟨h.2.1, h.2.2⟩)
      (BufInv_pres_write b.width b.height) x y r s b ⟨ih, rfl, rfl⟩).1
  | setString b x y s st hr ih =>
    exact (SetString_pres b.width b.height _ (fun b' h => ⟨h.2.1, h.2.2⟩)
      (BufInv_pres_write b.width b.height) x y s st b ⟨ih, rfl, rfl⟩).1
  | fill b rc ch st hr ih =>
    exact (Fill_pres b.width b.height _ (fun b' h => ⟨h.2.1, h.2.2⟩)
      (BufInv_pres_write b.width b.height) rc ch st b ⟨ih, rfl, rfl⟩).1
  | markAllDirty b hr ih => exact BufInv.markAllDirty b ih
  | clearDirty b hr ih => exact BufInv.clearDirty b ih
  | resize b w h hr ih => exact BufInv.resize b ih w h

/-- C9. Implicit dirty-tracking invariant: in every reachable buffer with
`dirtyAll` false, the dirty count equals the number of cells stamped with
the current generation, every stamped cell lies in the dirty bounding rect,
an enabled sparse list holds exactly the stamped indices without duplicates,
and the public accessors `IsDirty`, `DirtyCount`, `DirtyRect` agree with
that same set of dirty cells. -/
theorem dirty_tracking_invariant (b : Buffer) (hr : Reachable b)
    (hall : b.dirtyAll = false) :
    b.dirtyCount = b.stamped.card ∧
      (∀ i ∈ b.stamped,
        b.dirtyRect.contains ((i % b.width : Nat) : Int)
          ((i / b.width : Nat) : Int)) ∧
      (b.dirtyListEnabled = true →
        b.dirtyIndices.Nodup ∧
          ∀ i : Nat, i ∈ b.dirtyIndices ↔ i ∈ b.stamped) ∧
      (b.IsDirty = true ↔ b.stamped.Nonempty) ∧
      b.DirtyCount = b.stamped.card ∧
      b.DirtyRect = b.dirtyRect := by
  have hb := reachable_bufInv hr
  refine ⟨hb.countCard hall, hb.stampInRect hall, hb.listSpec hall, ?_, ?_, ?_⟩
  · unfold Buffer.IsDirty
    rw [hall]
    rw [Bool.false_or, decide_eq_true_eq, hb.countCard hall]
    exact Finset.card_pos
  · unfold Buffer.DirtyCount
    rw [if_neg (by rw [hall]; exact Bool.false_ne_true)]
    exact hb.countCard hall
  · unfold Buffer.DirtyRect
    rw [if_neg (by rw [hall]; exact Bool.false_ne_true)]

/-- Witness for C9 at a concrete input: a 2×2 buffer with one written
cell. -/
theorem dirty_tracking_invariant_witness :
    (((NewBuffer 2 2).Set 0 0 'X' ⟨0⟩).dirtyAll = false) ∧
      (((NewBuffer 2 2).Set 0 0 'X' ⟨0⟩).dirtyCount =
          ((NewBuffer 2 2).Set 0 0 'X' ⟨0⟩).stamped.card ∧
        (∀ i ∈ ((NewBuffer 2 2).Set 0 0 'X' ⟨0⟩).stamped,
          ((NewBuffer 2 2).Set 0 0 'X' ⟨0⟩).dirtyRect.contains
            ((i % ((NewBuffer 2 2).Set 0 0 'X' ⟨0⟩).width : Nat) : Int)
            ((i / ((NewBuffer 2 2).Set 0 0 'X' ⟨0⟩).width : Nat) : Int)) ∧
        (((NewBuffer 2 2).Set 0 0 'X' ⟨0⟩).dirtyListEnabled = true →
          ((NewBuffer 2 2).Set 0 0 'X' ⟨0⟩).dirtyIndices.Nodup ∧
            ∀ i : Nat, i ∈ ((NewBuffer 2 2).Set 0 0 'X' ⟨0⟩).dirtyIndices ↔
              i ∈ ((NewBuffer 2 2).Set 0 0 'X' ⟨0⟩).stamped) ∧
        (((NewBuffer 2 2).Set 0 0 'X' ⟨0⟩).IsDirty = true ↔
          ((NewBuffer 2 2).Set 0 0 'X' ⟨0⟩).stamped.Nonempty) ∧
        ((NewBuffer 2 2).Set 0 0 'X' ⟨0⟩).DirtyCount =
          ((NewBuffer 2 2).Set 0 0 'X' ⟨0⟩).stamped.card ∧
        ((NewBuffer 2 2).Set 0 0 'X' ⟨0⟩).DirtyRect =
          ((NewBuffer 2 2).Set 0 0 'X' ⟨0⟩).dirtyRect) :=
  ⟨by decide,
    dirty_tracking_invariant ((NewBuffer 2 2).Set 0 0 'X' ⟨0⟩)
      (Reachable.set (NewBuffer 2 2) 0 0 'X' ⟨0⟩ (Reachable.new 2 2))
      (by decide)⟩

/-! ### Claim C2: the render flush and the backend

The display backend is a grid of cells addressed by (x, y); `SetContent`
writes one cell, the optional bulk capabilities `SetRow`
(backend/row_writer.go) and `SetRect` (backend/rect_writer.go) write a
row segment resp. a row-major rectangle. -/

/-- A backend's cell contents as a function of (column, row). -/
def Backend : Type := Nat → Nat → Cell

/-- `Backend.SetContent(x, y, rune, nil, style)`: write one cell. -/
def setContent (bk : Backend) (x y : Nat) (c : Cell) : Backend :=
  fun x' y' => if x' = x ∧ y' = y then c else bk x' y'

/-- `RowWriter.SetRow(y, startX, cells)` (backend/row_writer.go): write the
given cells at consecutive columns of row y starting at startX. -/
def setRow (bk : Backend) (y startX : Nat) (cs : List Cell) : Backend :=
  fun x' y' =>
    if y' = y ∧ startX ≤ x' ∧ x' < startX + cs.length then
      cs.getD (x' - startX) Cell.zero
    else bk x' y'

/-- `RectWriter.SetRect(x, y, width, height, cells)`
(backend/rect_writer.go): write a row-major width×height block of cells with
its top-left corner at (x, y). -/
def setRect (bk : Backend) (x y w h : Nat) (cs : List Cell) : Backend :=
  fun x' y' =>
    if x ≤ x' ∧ x' < x + w ∧ y ≤ y' ∧ y' < y + h ∧
        (y' - y) * w + (x' - x) < cs.length then
      cs.getD ((y' - y) * w + (x' - x)) Cell.zero
    else bk x' y'

/-- The Go slice `cells[a : a+len]` of the buffer's cell array. -/
def sliceCells (f : Nat → Cell) (a len : Nat) : List Cell :=
  (List.range len).map (fun i => f (a + i))

/-- Applying a sequence of per-cell `SetContent` writes in order. -/
def applyWrites (L : List (Nat × Nat × Cell)) (bk : Backend) : Backend :=
  L.foldl (fun acc e => setContent acc e.1 e.2.1 e.2.2) bk

/-- Applying a sequence of `SetRow` span writes `(y, startX, endX)` in
order, each sourced from the buffer's cell array exactly as the flush does:
`SetRow(y, startX, cells[y*width+startX : y*width+endX])`. -/
def applySpans (b : Buffer) (L : List (Nat × Nat × Nat)) (bk : Backend) :
    Backend :=
  L.foldl (fun acc sp =>
    setRow acc sp.1 sp.2.1
      (sliceCells b.cells (sp.1 * b.width + sp.2.1) (sp.2.2 - sp.2.1))) bk

/-- Shallow embedding of the backend-write phase of `(*App).render`
(app.go): pick a write strategy from the dirty statistics and the backend's
optional bulk capabilities, and write the chosen cells from the buffer to
the backend. The per-frame bookkeeping (observer statistics, recorder,
`ClearDirty`) does not touch the backend contents and is omitted. -/
def renderFlush (b : Buffer) (hasRectW hasRowW : Bool) (bk : Backend) :
    Backend :=
  if b.IsDirty = true then
    let dirtyCount := b.DirtyCount
    let w := b.width
    let h := b.height
    let totalCells := w * h
    if totalCells / 2 < dirtyCount then
      if hasRectW = true then
        setRect bk 0 0 w h (sliceCells b.cells 0 (w * h))
      else if hasRowW = true then
        applySpans b ((List.range h).map (fun y => (y, 0, w))) bk
      else
        applyWrites ((List.range h).flatMap (fun y =>
          (List.range w).map (fun x => (x, y, b.cells (y * w + x))))) bk
    else
      let rect := b.DirtyRect
      let rectArea := rect.width * rect.height
      if hasRectW = true ∧ rect.width = (w : Int) ∧ 0 < rectArea ∧
          rectArea ≤ (dirtyCount : Int) * 2 then
        setRect bk 0 rect.y.toNat w rect.height.toNat
          (sliceCells b.cells (rect.y.toNat * w) rectArea.toNat)
      else if hasRowW = true ∧ 0 < rectArea ∧
          rectArea ≤ (dirtyCount : Int) * 4 then
        applySpans b b.ForEachDirtySpan bk
      else
        applyWrites b.ForEachDirtyCell bk
  else bk

/-- The naive full linear redraw the design doc compares against: write
every cell of the buffer to the backend in row-major order. -/
def naiveRedraw (b : Buffer) (bk : Backend) : Backend :=
  applyWrites ((List.range b.height).flatMap (fun y =>
    (List.range b.width).map (fun x => (x, y, b.cells (y * b.width + x)))))
    bk

/-! #### Value lemmas for the backend write primitives -/

lemma sliceCells_length (f : Nat → Cell) (a len : Nat) :
    (sliceCells f a len).length = len := by
  simp [sliceCells]

lemma sliceCells_getD (f : Nat → Cell) (a len i : Nat) (h : i < len) :
    (sliceCells f a len).getD i Cell.zero = f (a + i) := by
  unfold sliceCells
  rw [List.getD_eq_getElem?_getD, List.getElem?_map, List.getElem?_range h]
  rfl

lemma applyWrites_not_mem (L : List (Nat × Nat × Cell)) (bk : Backend)
    (x y : Nat) (h : ∀ c, (x, y, c) ∉ L) :
    applyWrites L bk x y = bk x y := by
  induction L generalizing bk with
  | nil => rfl
  | cons p t ih =>
    have ht : ∀ c, (x, y, c) ∉ t := by
      intro c hc
      exact h c (List.mem_cons_of_mem p hc)
    show applyWrites t (setContent bk p.1 p.2.1 p.2.2) x y = bk x y
    rw [ih _ ht]
    unfold setContent
    rw [if_neg]
    intro ⟨h1, h2⟩
    exact h p.2.2 (by
      have : p = (x, y, p.2.2) := by
        subst h1; subst h2; rfl
      rw [← this]
      exact List.mem_cons_self p t)

lemma applyWrites_mem (L : List (Nat × Nat × Cell)) (bk : Backend)
    (x y : Nat) (val : Nat → Nat → Cell)
    (hv : ∀ p ∈ L, p.2.2 = val p.1 p.2.1) (hm : ∃ c, (x, y, c) ∈ L) :
    applyWrites L bk x y = val x y := by
  induction L generalizing bk with
  | nil => exact absurd hm (by simp)
  | cons p t ih =>
    show applyWrites t (setContent bk p.1 p.2.1 p.2.2) x y = val x y
    by_cases hmt : ∃ c, (x, y, c) ∈ t
    · exact ih _ (fun q hq => hv q (List.mem_cons_of_mem p hq)) hmt
    · obtain ⟨c, hc⟩ := hm
      rcases List.mem_cons.mp hc with hc | hc
      · rw [applyWrites_not_mem t _ x y (fun c' hc' => hmt ⟨c', hc'⟩)]
        unfold setContent
        rw [if_pos (by rw [← hc]; exact ⟨rfl, rfl⟩)]
        have := hv p (List.mem_cons_self p t)
        rw [← hc] at this ⊢
        exact this
      · exact absurd ⟨c, hc⟩ hmt

lemma applySpans_val (b : Buffer) (L : List (Nat × Nat × Nat))
    (bk : Backend) (x y : Nat) :
    applySpans b L bk x y =
      if ∃ sp ∈ L, sp.1 = y ∧ sp.2.1 ≤ x ∧ x < sp.2.2 ∧ sp.2.1 ≤ sp.2.2 then
        b.cells (y * b.width + x)
      else bk x y := by
  induction L generalizing bk with
  | nil => simp [applySpans]
  | cons sp t ih =>
    show applySpans b t _ x y = _
    rw [ih]
    by_cases hmt : ∃ q ∈ t, q.1 = y ∧ q.2.1 ≤ x ∧ x < q.2.2 ∧ q.2.1 ≤ q.2.2
    · rw [if_pos hmt, if_pos]
      obtain ⟨q, hq, h2⟩ := hmt
      exact ⟨q, List.mem_cons_of_mem sp hq, h2⟩
    · rw [if_neg hmt]
      unfold setRow
      dsimp only []
      rw [sliceCells_length]
      by_cases hc : y = sp.1 ∧ sp.2.1 ≤ x ∧ x < sp.2.1 + (sp.2.2 - sp.2.1)
      · rw [if_pos hc]
        obtain ⟨h1, h2, h3⟩ := hc
        rw [sliceCells_getD _ _ _ _ (by omega)]
        rw [if_pos ⟨sp, List.mem_cons_self sp t, h1.symm, h2, by omega,
          by omega⟩]
        subst h1
        congr 1
        omega
      · rw [if_neg hc, if_neg]
        intro ⟨q, hq, h1, h2, h3, h4⟩
        rcases List.mem_cons.mp hq with hq | hq
        · subst hq
          exact hc ⟨h1.symm, h2, by omega⟩
        · exact hmt ⟨q, hq, h1, h2, h3, h4⟩

/-! #### Soundness and coverage of the dirty-iteration helpers -/

lemma allCells_sound (w h : Nat) (f : Nat → Cell) :
    ∀ p ∈ (List.range h).flatMap (fun y =>
      (List.range w).map (fun x => (x, y, f (y * w + x)))),
      p.2.2 = f (p.2.1 * w + p.1) := by
  intro p hp
  simp only [List.mem_flatMap, List.mem_range, List.mem_map] at hp
  obtain ⟨y, hy, x, hx, rfl⟩ := hp
  rfl

lemma allCells_mem (w h : Nat) (f : Nat → Cell) (x y : Nat) (hx : x < w)
    (hy : y < h) :
    (x, y, f (y * w + x)) ∈ (List.range h).flatMap (fun y =>
      (List.range w).map (fun x => (x, y, f (y * w + x)))) := by
  simp only [List.mem_flatMap, List.mem_range, List.mem_map]
  exact ⟨y, hy, x, hx, rfl⟩

lemma naiveRedraw_val (b : Buffer) (bk : Backend) (x y : Nat)
    (hx : x < b.width) (hy : y < b.height) :
    naiveRedraw b bk x y = b.cells (y * b.width + x) :=
  applyWrites_mem _ bk x y (fun x' y' => b.cells (y' * b.width + x'))
    (allCells_sound b.width b.height b.cells)
    ⟨b.cells (y * b.width + x), allCells_mem b.width b.height b.cells x y hx hy⟩

lemma isCellDirty_spec (b : Buffer) (x y : Nat) (hx : x < b.width)
    (hy : y < b.height) :
    b.IsCellDirty x y = true ↔
      (b.dirtyAll = true ∨ b.dirtyStamp (y * b.width + x) = b.dirtyGen) := by
  unfold Buffer.IsCellDirty
  rw [if_neg (by push_cast; omega)]
  by_cases hall : b.dirtyAll = true
  · simp [hall]
  · simp [hall, Int.toNat_natCast]

lemma forEachDirtyCell_sound (b : Buffer) :
    ∀ p ∈ b.ForEachDirtyCell, p.2.2 = b.cells (p.2.1 * b.width + p.1) := by
  intro p hp
  unfold Buffer.ForEachDirtyCell at hp
  split_ifs at hp with h1 h2 h3 h4
  · exact allCells_sound b.width b.height b.cells p hp
  · exact absurd hp (List.not_mem_nil p)
  · simp only [List.mem_flatMap, List.mem_range, List.mem_filterMap] at hp
    obtain ⟨y, hy, x, hx, hsome⟩ := hp
    by_cases hst : b.dirtyStamp (y * b.width + x) = b.dirtyGen
    · rw [if_pos hst] at hsome
      obtain rfl := Option.some.inj hsome
      rfl
    · rw [if_neg hst] at hsome
      cases hsome
  · simp only [List.mem_filterMap] at hp
    obtain ⟨idx, hidx, hsome⟩ := hp
    by_cases hst : b.dirtyStamp idx = b.dirtyGen
    · rw [if_pos hst] at hsome
      obtain rfl := Option.some.inj hsome
      dsimp only []
      congr 1
      have := Nat.div_mul_le_self idx b.width
      omega
    · rw [if_neg hst] at hsome
      cases hsome
  · unfold Buffer.dirtyRectScan at hp
    simp only [List.mem_flatMap, List.mem_range, List.mem_filterMap] at hp
    obtain ⟨j, hj, k, hk, hsome⟩ := hp
    by_cases hst : b.dirtyStamp ((b.dirtyRect.y + (j : Int)).toNat * b.width
        + (b.dirtyRect.x + (k : Int)).toNat) = b.dirtyGen
    · rw [if_pos hst] at hsome
      obtain rfl := Option.some.inj hsome
      rfl
    · rw [if_neg hst] at hsome
      cases hsome

lemma forEachDirtyCell_covers (b : Buffer) (hb : BufInv b) (x y : Nat)
    (hx : x < b.width) (hy : y < b.height)
    (hdirt : b.dirtyAll = true ∨
      b.dirtyStamp (y * b.width + x) = b.dirtyGen) :
    (x, y, b.cells (y * b.width + x)) ∈ b.ForEachDirtyCell := by
  unfold Buffer.ForEachDirtyCell
  by_cases h1 : b.dirtyAll = true
  · rw [if_pos h1]
    exact allCells_mem b.width b.height b.cells x y hx hy
  · rw [if_neg h1]
    have hallF : b.dirtyAll = false := by rwa [Bool.not_eq_true] at h1
    have hst : b.dirtyStamp (y * b.width + x) = b.dirtyGen :=
      hdirt.resolve_left h1
    have hmem : y * b.width + x ∈ b.stamped := by
      simp only [Buffer.stamped, Finset.mem_filter, Finset.mem_range]
      exact ⟨idx_lt_total _ _ _ _ hx hy, hst⟩
    have hcpos : 0 < b.dirtyCount := by
      rw [hb.countCard hallF]
      exact Finset.card_pos.mpr ⟨_, hmem⟩
    rw [if_neg (by omega)]
    by_cases h3 : b.width * b.height / 2 < b.dirtyCount
    · rw [if_pos h3]
      simp only [List.mem_flatMap, List.mem_range, List.mem_filterMap]
      exact ⟨y, hy, x, hx, by rw [if_pos hst]⟩
    · rw [if_neg h3]
      by_cases h4 : b.dirtyListEnabled = true ∧
          b.dirtyIndices.length = b.dirtyCount ∧
          (b.dirtyCount : Int) * 2 < b.dirtyRect.width * b.dirtyRect.height
      · rw [if_pos h4]
        simp only [List.mem_filterMap]
        refine ⟨y * b.width + x, ((hb.listSpec hallF h4.1).2 _).mpr hmem, ?_⟩
        rw [if_pos hst, idx_div _ _ _ hx]
        have harith : y * b.width + x - y * b.width = x :=
          Nat.add_sub_cancel_left _ _
        rw [harith]
      · rw [if_neg h4]
        unfold Buffer.dirtyRectScan
        have hcont := hb.stampInRect hallF _ hmem
        rw [idx_mod _ _ _ hx, idx_div _ _ _ hx] at hcont
        obtain ⟨c1, c2, c3, c4⟩ := hcont
        obtain ⟨g1, g2, g3, g4, g5, g6⟩ := hb.rectBounds hallF hcpos
        simp only [List.mem_flatMap, List.mem_range, List.mem_filterMap]
        refine ⟨((y : Int) - b.dirtyRect.y).toNat, by omega, ?_⟩
        have hyy : b.dirtyRect.y +
            ((((y : Int) - b.dirtyRect.y).toNat : Nat) : Int) = (y : Int) := by
          omega
        rw [hyy]
        refine ⟨((x : Int) - b.dirtyRect.x).toNat, by omega, ?_⟩
        have hxx : b.dirtyRect.x +
            ((((x : Int) - b.dirtyRect.x).toNat : Nat) : Int) = (x : Int) := by
          omega
        rw [hxx]
        simp only [Int.toNat_natCast]
        rw [if_pos hst]

/-- Every stamped cell in a row is covered by some span the row-span loop
emits. -/
lemma rowSpans_covers (stamp : Nat → Nat) (gen w yN : Nat) (xEnd : Int)
    (x0 : Int) (x : Nat) (h0 : 0 ≤ x0) (hle : x0 ≤ (x : Int))
    (hlt : (x : Int) < xEnd) (hst : stamp (yN * w + x) = gen) :
    ∃ sp ∈ rowSpans stamp gen w yN xEnd x0,
      sp.1 ≤ x ∧ x < sp.2 ∧ sp.1 ≤ sp.2 := by
  have hx0lt : x0 < xEnd := lt_of_le_of_lt hle hlt
  rw [rowSpans, dif_pos hx0lt]
  by_cases hs0 : stamp (yN * w + x0.toNat) = gen
  · rw [if_pos hs0]
    have hge : x0 + 1 ≤ scanSpanEnd stamp gen w yN xEnd (x0 + 1) :=
      scanSpanEnd_ge stamp gen w yN xEnd (x0 + 1)
    by_cases hxe : (x : Int) < scanSpanEnd stamp gen w yN xEnd (x0 + 1)
    · exact ⟨(x0.toNat, (scanSpanEnd stamp gen w yN xEnd (x0 + 1)).toNat),
        List.mem_cons_self _ _, by omega, by omega, by omega⟩
    · obtain ⟨sp, hsp, hcov⟩ := rowSpans_covers stamp gen w yN xEnd
        (scanSpanEnd stamp gen w yN xEnd (x0 + 1)) x (by omega) (by omega)
        hlt hst
      exact ⟨sp, List.mem_cons_of_mem _ hsp, hcov⟩
  · rw [if_neg hs0]
    have hne : x0.toNat ≠ x := by
      intro hh
      rw [hh] at hs0
      exact hs0 hst
    exact rowSpans_covers stamp gen w yN xEnd (x0 + 1) x (by omega)
      (by omega) hlt hst
termination_by (xEnd - x0).toNat
decreasing_by
  · omega
  · omega

/-- Every stamped cell of a buffer satisfying the invariant is covered by a
span of `ForEachDirtySpan` (in the not-everything-dirty case). -/
lemma forEachDirtySpan_covers (b : Buffer) (hb : BufInv b) (x y : Nat)
    (hx : x < b.width) (hy : y < b.height) (hall : b.dirtyAll = false)
    (hst : b.dirtyStamp (y * b.width + x) = b.dirtyGen) :
    ∃ sp ∈ b.ForEachDirtySpan,
      sp.1 = y ∧ sp.2.1 ≤ x ∧ x < sp.2.2 ∧ sp.2.1 ≤ sp.2.2 := by
  have hmem : y * b.width + x ∈ b.stamped := by
    simp only [Buffer.stamped, Finset.mem_filter, Finset.mem_range]
    exact ⟨idx_lt_total _ _ _ _ hx hy, hst⟩
  have hcpos : 0 < b.dirtyCount := by
    rw [hb.countCard hall]
    exact Finset.card_pos.mpr ⟨_, hmem⟩
  have hcont := hb.stampInRect hall _ hmem
  rw [idx_mod _ _ _ hx, idx_div _ _ _ hx] at hcont
  obtain ⟨c1, c2, c3, c4⟩ := hcont
  obtain ⟨g1, g2, g3, g4, g5, g6⟩ := hb.rectBounds hall hcpos
  unfold Buffer.ForEachDirtySpan
  rw [if_neg (by rw [hall]; exact Bool.false_ne_true), if_neg (by omega),
    if_neg (by omega)]
  simp only [List.mem_flatMap, List.mem_range, List.mem_map]
  have hyy : b.dirtyRect.y +
      ((((y : Int) - b.dirtyRect.y).toNat : Nat) : Int) = (y : Int) := by
    omega
  obtain ⟨sp, hsp, hcov1, hcov2, hcov3⟩ := rowSpans_covers b.dirtyStamp
    b.dirtyGen b.width y (min (b.width : Int)
      (b.dirtyRect.x + b.dirtyRect.width)) b.dirtyRect.x x g1 c1
    (by omega) hst
  refine ⟨(y, sp.1, sp.2), ⟨((y : Int) - b.dirtyRect.y).toNat,
    by omega, ?_⟩, rfl, hcov1, hcov2, hcov3⟩
  rw [hyy]
  simp only [Int.toNat_natCast]
  exact ⟨sp, hsp, rfl⟩

/-- In-bounds cells that are not reported dirty are unstamped (and nothing
is dirty globally). -/
lemma isCellDirty_false_spec (b : Buffer) (x y : Nat) (hx : x < b.width)
    (hy : y < b.height) (h : b.IsCellDirty x y = false) :
    b.dirtyAll = false ∧ b.dirtyStamp (y * b.width + x) ≠ b.dirtyGen := by
  by_cases hall : b.dirtyAll = true
  · rw [(isCellDirty_spec b x y hx hy).mpr (Or.inl hall)] at h
    cases h
  · refine ⟨by rwa [Bool.not_eq_true] at hall, ?_⟩
    intro hst
    rw [(isCellDirty_spec b x y hx hy).mpr (Or.inr hst)] at h
    cases h

/-- C2. Flush-strategy equivalence: for every reachable buffer and every
dirty pattern, whichever backend write strategy the render flush chooses
(full redraw via rect, row or per-cell writes; single bulk rectangle write;
per-row span writes; or per-cell dirty iteration), the backend afterwards
holds exactly the same cell contents as a naive linear redraw that writes
every cell of the buffer — provided the backend already agreed with the
buffer on the cells not reported dirty, which is the state the previous
flush left it in. -/
theorem flush_strategy_equivalence (b : Buffer) (bk : Backend)
    (hasRectW hasRowW : Bool) (hr : Reachable b)
    (hsync : ∀ x y : Nat, x < b.width → y < b.height →
      b.IsCellDirty x y = false → bk x y = b.cells (y * b.width + x)) :
    ∀ x y : Nat, x < b.width → y < b.height →
      renderFlush b hasRectW hasRowW bk x y = naiveRedraw b bk x y := by
  have hb := reachable_bufInv hr
  intro x y hx hy
  rw [naiveRedraw_val b bk x y hx hy]
  unfold renderFlush
  simp only []
  by_cases hdirty : b.IsDirty = true
  case neg =>
    rw [if_neg hdirty]
    have hnd : b.dirtyAll = false ∧ b.dirtyCount = 0 := by
      rw [Bool.not_eq_true] at hdirty
      simpa [Buffer.IsDirty, Nat.le_zero] using hdirty
    have hclean : b.IsCellDirty x y = false := by
      cases hIC : b.IsCellDirty x y with
      | false => rfl
      | true =>
        exfalso
        rcases (isCellDirty_spec b x y hx hy).mp hIC with hall | hst
        · rw [hnd.1] at hall
          cases hall
        · have hmem : y * b.width + x ∈ b.stamped := by
            simp only [Buffer.stamped, Finset.mem_filter, Finset.mem_range]
            exact ⟨idx_lt_total _ _ _ _ hx hy, hst⟩
          have := hb.countCard hnd.1
          rw [hnd.2] at this
          exact absurd (Finset.card_pos.mpr ⟨_, hmem⟩) (by omega)
    exact hsync x y hx hy hclean
  case pos =>
    rw [if_pos hdirty]
    by_cases hfull : b.width * b.height / 2 < b.DirtyCount
    · rw [if_pos hfull]
      by_cases hrcw : hasRectW = true
      · rw [if_pos hrcw]
        unfold setRect
        rw [sliceCells_length]
        rw [if_pos ⟨Nat.zero_le x, by omega, Nat.zero_le y, by omega,
          by simpa using idx_lt_total _ _ _ _ hx hy⟩]
        rw [sliceCells_getD _ _ _ _ (by simpa using idx_lt_total _ _ _ _ hx hy)]
        simp
      · rw [if_neg hrcw]
        by_cases hrww : hasRowW = true
        · rw [if_pos hrww]
          rw [applySpans_val]
          rw [if_pos ⟨(y, 0, b.width), List.mem_map.mpr
            ⟨y, List.mem_range.mpr hy, rfl⟩, rfl, Nat.zero_le x, hx,
            Nat.zero_le _⟩]
        · rw [if_neg hrww]
          exact applyWrites_mem _ bk x y
            (fun x' y' => b.cells (y' * b.width + x'))
            (allCells_sound b.width b.height b.cells)
            ⟨_, allCells_mem b.width b.height b.cells x y hx hy⟩
    · rw [if_neg hfull]
      by_cases hall : b.dirtyAll = true
      · exfalso
        have hdc : b.DirtyCount = b.width * b.height := by
          unfold Buffer.DirtyCount
          rw [if_pos hall]
        have hidx := idx_lt_total b.width b.height x y hx hy
        omega
      · have hallF : b.dirtyAll = false := by rwa [Bool.not_eq_true] at hall
        have hcnt : b.DirtyCount = b.dirtyCount := by
          unfold Buffer.DirtyCount
          rw [if_neg hall]
        have hdr : b.DirtyRect = b.dirtyRect := by
          unfold Buffer.DirtyRect
          rw [if_neg hall]
        have hcpos : 0 < b.dirtyCount := by
          unfold Buffer.IsDirty at hdirty
          rw [hallF] at hdirty
          simpa using hdirty
        obtain ⟨g1, g2, g3, g4, g5, g6⟩ := hb.rectBounds hallF hcpos
        rw [hcnt, hdr]
        by_cases huseRect : hasRectW = true ∧
            b.dirtyRect.width = (b.width : Int) ∧
            0 < b.dirtyRect.width * b.dirtyRect.height ∧
            b.dirtyRect.width * b.dirtyRect.height ≤ (b.dirtyCount : Int) * 2
        · rw [if_pos huseRect]
          obtain ⟨-, hrw, -, -⟩ := huseRect
          have hlen : (b.dirtyRect.width * b.dirtyRect.height).toNat =
              b.width * b.dirtyRect.height.toNat := by
            rw [hrw, show b.dirtyRect.height =
              ((b.dirtyRect.height.toNat : Nat) : Int) from
                (Int.toNat_of_nonneg (by omega)).symm]
            norm_cast
          unfold setRect
          rw [sliceCells_length, hlen]
          by_cases hcover : b.dirtyRect.y.toNat ≤ y ∧
              y < b.dirtyRect.y.toNat + b.dirtyRect.height.toNat
          · have hmul : b.dirtyRect.y.toNat * b.width +
                (y - b.dirtyRect.y.toNat) * b.width = y * b.width := by
              rw [← Nat.add_mul]
              congr 1
              omega
            have hoff : (y - b.dirtyRect.y.toNat) * b.width + (x - 0) <
                b.width * b.dirtyRect.height.toNat := by
              have := idx_lt_total b.width b.dirtyRect.height.toNat x
                (y - b.dirtyRect.y.toNat) hx (by omega)
              omega
            rw [if_pos ⟨Nat.zero_le x, by omega, hcover.1, by omega, hoff⟩]
            rw [sliceCells_getD _ _ _ _ hoff]
            congr 1
            omega
          · rw [if_neg (by
              rintro ⟨-, -, hc3, hc4, -⟩
              exact hcover ⟨hc3, hc4⟩)]
            refine hsync x y hx hy ?_
            cases hIC : b.IsCellDirty x y with
            | false => rfl
            | true =>
              exfalso
              rcases (isCellDirty_spec b x y hx hy).mp hIC with ha | hst
              · rw [hallF] at ha
                cases ha
              · have hmem : y * b.width + x ∈ b.stamped := by
                  simp only [Buffer.stamped, Finset.mem_filter,
                    Finset.mem_range]
                  exact ⟨idx_lt_total _ _ _ _ hx hy, hst⟩
                have hcont := hb.stampInRect hallF _ hmem
                rw [idx_mod _ _ _ hx, idx_div _ _ _ hx] at hcont
                obtain ⟨-, -, c3, c4⟩ := hcont
                exact hcover ⟨by omega, by omega⟩
        · rw [if_neg huseRect]
          by_cases hspan : hasRowW = true ∧
              0 < b.dirtyRect.width * b.dirtyRect.height ∧
              b.dirtyRect.width * b.dirtyRect.height ≤ (b.dirtyCount : Int) * 4
          · rw [if_pos hspan]
            rw [applySpans_val]
            by_cases hcov : ∃ sp ∈ b.ForEachDirtySpan,
                sp.1 = y ∧ sp.2.1 ≤ x ∧ x < sp.2.2 ∧ sp.2.1 ≤ sp.2.2
            · rw [if_pos hcov]
            · rw [if_neg hcov]
              refine hsync x y hx hy ?_
              cases hIC : b.IsCellDirty x y with
              | false => rfl
              | true =>
                exfalso
                rcases (isCellDirty_spec b x y hx hy).mp hIC with ha | hst
                · rw [hallF] at ha
                  cases ha
                · exact hcov (forEachDirtySpan_covers b hb x y hx hy
                    hallF hst)
          · rw [if_neg hspan]
            by_cases hcov : ∃ c, (x, y, c) ∈ b.ForEachDirtyCell
            · exact applyWrites_mem _ bk x y
                (fun x' y' => b.cells (y' * b.width + x'))
                (forEachDirtyCell_sound b) hcov
            · rw [applyWrites_not_mem _ _ x y (fun c hc => hcov ⟨c, hc⟩)]
              refine hsync x y hx hy ?_
              cases hIC : b.IsCellDirty x y with
              | false => rfl
              | true =>
                exfalso
                rcases (isCellDirty_spec b x y hx hy).mp hIC with ha | hst
                · rw [hallF] at ha
                  cases ha
                · exact hcov ⟨_, forEachDirtyCell_covers b hb x y hx hy
                    (Or.inr hst)⟩

/-- Witness for C2 at a concrete input: a 2×2 buffer with one changed cell,
a backend in sync on the clean cells, and a backend exposing no bulk
capabilities. -/
theorem flush_strategy_equivalence_witness :
    (∀ x y : Nat, x < ((NewBuffer 2 2).Set 0 0 'X' ⟨0⟩).width →
      y < ((NewBuffer 2 2).Set 0 0 'X' ⟨0⟩).height →
      ((NewBuffer 2 2).Set 0 0 'X' ⟨0⟩).IsCellDirty x y = false →
      (fun x' y' => ((NewBuffer 2 2).Set 0 0 'X' ⟨0⟩).cells
        (y' * ((NewBuffer 2 2).Set 0 0 'X' ⟨0⟩).width + x')) x y =
        ((NewBuffer 2 2).Set 0 0 'X' ⟨0⟩).cells
          (y * ((NewBuffer 2 2).Set 0 0 'X' ⟨0⟩).width + x)) ∧
    (∀ x y : Nat, x < ((NewBuffer 2 2).Set 0 0 'X' ⟨0⟩).width →
      y < ((NewBuffer 2 2).Set 0 0 'X' ⟨0⟩).height →
      renderFlush ((NewBuffer 2 2).Set 0 0 'X' ⟨0⟩) false false
          (fun x' y' => ((NewBuffer 2 2).Set 0 0 'X' ⟨0⟩).cells
            (y' * ((NewBuffer 2 2).Set 0 0 'X' ⟨0⟩).width + x')) x y =
        naiveRedraw ((NewBuffer 2 2).Set 0 0 'X' ⟨0⟩)
          (fun x' y' => ((NewBuffer 2 2).Set 0 0 'X' ⟨0⟩).cells
            (y' * ((NewBuffer 2 2).Set 0 0 'X' ⟨0⟩).width + x')) x y) :=
  ⟨fun _ _ _ _ _ => rfl,
    flush_strategy_equivalence ((NewBuffer 2 2).Set 0 0 'X' ⟨0⟩) _ false false
      (Reachable.set (NewBuffer 2 2) 0 0 'X' ⟨0⟩ (Reachable.new 2 2))
      (fun _ _ _ _ _ => rfl)⟩

/-! ## Widgets, lifecycle and the layered screen

`runtime/lifecycle.go` and `runtime/screen.go`. A widget is either a Go nil
interface value or a node; a node's identity, whether it implements the
optional `Lifecycle` capability, and its `ChildWidgets()` list (empty for
widgets that are not a `ChildProvider`, or one that returns no children)
are what the traversals consume. -/

inductive Widget where
  | nil : Widget
  | node (id : Nat) (lifecycle : Bool) (children : List Widget) : Widget

/-- The event a lifecycle hook invocation produces. -/
inductive Ev where
  | mount (id : Nat)
  | unmount (id : Nat)
deriving DecidableEq, Repr

mutual
/-- Shallow embedding of `mountWidget` (lifecycle.go:19-31): fire the
widget's own Mount hook (when it implements `Lifecycle`), then recurse into
the children, left to right. Returns the hook-invocation trace. -/
def mountWidget : Widget → List Ev
  | .nil => []
  | .node i l cs => (if l then [Ev.mount i] else []) ++ mountList cs

def mountList : List Widget → List Ev
  | [] => []
  | c :: cs => mountWidget c ++ mountList cs
end

mutual
/-- Shallow embedding of `unmountWidget` (lifecycle.go:33-45): recurse into
the children first, left to right, then fire the widget's own Unmount
hook. -/
def unmountWidget : Widget → List Ev
  | .nil => []
  | .node i l cs => unmountList cs ++ (if l then [Ev.unmount i] else [])

def unmountList : List Widget → List Ev
  | [] => []
  | c :: cs => unmountWidget c ++ unmountList cs
end

mutual
/-- Preorder listing of all node identities of a tree. -/
def nodeIds : Widget → List Nat
  | .nil => []
  | .node i _ cs => i :: nodeIdsList cs

def nodeIdsList : List Widget → List Nat
  | [] => []
  | c :: cs => nodeIds c ++ nodeIdsList cs
end

/-- Proper-descendant relation on widget trees (transitive closure of the
`ChildWidgets` relation). -/
inductive Desc : Widget → Widget → Prop
  | here (i : Nat) (l : Bool) (cs : List Widget) (c : Widget)
      (hc : c ∈ cs) : Desc c (.node i l cs)
  | deeper (i : Nat) (l : Bool) (cs : List Widget) (w c : Widget)
      (hw : w ∈ cs) (hd : Desc c w) : Desc c (.node i l cs)

/-- A widget occurring somewhere in a tree (the tree itself or a proper
descendant). -/
def InTree (u t : Widget) : Prop := u = t ∨ Desc u t

/-- A layer of the screen's modal stack (screen.go:10-14); the focus scope
does not participate in the claims and is omitted. -/
structure Layer where
  root : Widget
  modal : Bool

/-- The screen state the mount/dispatch claims need: dimensions and the
bottom-to-top layer stack (screen.go:17-26). -/
structure Screen where
  width : Nat
  height : Nat
  layers : List Layer

/-- Shallow embedding of `(*Screen).SetRoot` (screen.go:101-130), returning
the new screen and the trace of lifecycle hooks fired: with no layers yet, a
base layer is created and the new root's tree is mounted; otherwise the old
root is remembered, replaced, unmounted (children before parent, a nil old
root firing nothing), and the new root is bound, laid out and mounted
(parent before children). Bind/Unbind and layout calls fire no
Mount/Unmount hooks and are not part of the trace. -/
def Screen.SetRoot (s : Screen) (root : Widget) : Screen × List Ev :=
  match s.layers with
  | [] => (⟨s.width, s.height, [⟨root, false⟩]⟩, mountWidget root)
  | l0 :: rest =>
    (⟨s.width, s.height, ⟨root, l0.modal⟩ :: rest⟩,
      unmountWidget l0.root ++ mountWidget root)

/-- Shallow embedding of `(*Screen).PushLayer` (screen.go:142-161): append a
layer on top and mount its root. -/
def Screen.PushLayer (s : Screen) (root : Widget) (modal : Bool) :
    Screen × List Ev :=
  (⟨s.width, s.height, s.layers ++ [⟨root, modal⟩]⟩, mountWidget root)

/-- Shallow embedding of `(*Screen).PopLayer` (screen.go:165-181): refuse to
pop the base layer; otherwise unmount the top layer's root and drop the
layer. Returns the new screen, the hook trace, and the success flag. -/
def Screen.PopLayer (s : Screen) : Screen × List Ev × Bool :=
  if s.layers.length ≤ 1 then (s, [], false)
  else
    (⟨s.width, s.height, s.layers.dropLast⟩,
      unmountWidget ((s.layers.getLastD ⟨.nil, false⟩).root), true)

/-! ### Claim C7: mount/unmount ordering -/

lemma Desc.through (c p t : Widget) (h1 : Desc c p) (h2 : Desc p t) :
    Desc c t := by
  induction h2 with
  | here i l cs p hp => exact Desc.deeper i l cs p c hp h1
  | deeper i l cs w p hw hd ih => exact Desc.deeper i l cs w c hw (ih h1)

lemma inTree_of_desc_inTree (c p t : Widget) (h1 : Desc c p)
    (h2 : InTree p t) : InTree c t := by
  rcases h2 with rfl | hd
  · exact Or.inr h1
  · exact Or.inr (Desc.through c p t h1 hd)

lemma mountWidget_sublist_childList (c : Widget) (cs : List Widget)
    (h : c ∈ cs) : (mountWidget c).Sublist (mountList cs) := by
  induction cs with
  | nil => cases h
  | cons d ds ih =>
    simp only [mountList]
    rcases List.mem_cons.mp h with rfl | h
    · exact List.sublist_append_left _ _
    · exact (ih h).trans (List.sublist_append_right _ _)

lemma mountWidget_sublist_of_desc (c p : Widget) (h : Desc c p) :
    ∃ i l cs, p = .node i l cs ∧ (mountWidget c).Sublist (mountList cs) := by
  induction h with
  | here i l cs c hc =>
    exact ⟨i, l, cs, rfl, mountWidget_sublist_childList c cs hc⟩
  | deeper i l cs w c hw hd ih =>
    obtain ⟨iw, lw, csw, rfl, hsub⟩ := ih
    refine ⟨i, l, cs, rfl, hsub.trans (List.Sublist.trans ?_
      (mountWidget_sublist_childList _ cs hw))⟩
    simp only [mountWidget]
    exact List.sublist_append_right _ _

lemma mountWidget_sublist_inTree (p t : Widget) (h : InTree p t) :
    (mountWidget p).Sublist (mountWidget t) := by
  rcases h with rfl | hd
  · exact List.Sublist.refl _
  · obtain ⟨i, l, cs, rfl, hsub⟩ := mountWidget_sublist_of_desc p _ hd
    refine hsub.trans ?_
    simp only [mountWidget]
    exact List.sublist_append_right _ _

lemma unmountWidget_sublist_childList (c : Widget) (cs : List Widget)
    (h : c ∈ cs) : (unmountWidget c).Sublist (unmountList cs) := by
  induction cs with
  | nil => cases h
  | cons d ds ih =>
    simp only [unmountList]
    rcases List.mem_cons.mp h with rfl | h
    · exact List.sublist_append_left _ _
    · exact (ih h).trans (List.sublist_append_right _ _)

lemma unmountWidget_sublist_of_desc (c p : Widget) (h : Desc c p) :
    ∃ i l cs, p = .node i l cs ∧
      (unmountWidget c).Sublist (unmountList cs) := by
  induction h with
  | here i l cs c hc =>
    exact ⟨i, l, cs, rfl, unmountWidget_sublist_childList c cs hc⟩
  | deeper i l cs w c hw hd ih =>
    obtain ⟨iw, lw, csw, rfl, hsub⟩ := ih
    refine ⟨i, l, cs, rfl, hsub.trans (List.Sublist.trans ?_
      (unmountWidget_sublist_childList _ cs hw))⟩
    simp only [unmountWidget]
    exact List.sublist_append_left _ _

lemma unmountWidget_sublist_inTree (p t : Widget) (h : InTree p t) :
    (unmountWidget p).Sublist (unmountWidget t) := by
  rcases h with rfl | hd
  · exact List.Sublist.refl _
  · obtain ⟨i, l, cs, rfl, hsub⟩ := unmountWidget_sublist_of_desc p _ hd
    refine hsub.trans ?_
    simp only [unmountWidget]
    exact List.sublist_append_left _ _

mutual
lemma mountWidget_count_le (t : Widget) (i : Nat) :
    (mountWidget t).count (Ev.mount i) ≤ (nodeIds t).count i := by
  cases t with
  | nil => simp [mountWidget, nodeIds]
  | node j l cs =>
    have h := mountList_count_le cs i
    simp only [mountWidget, nodeIds, List.count_append, List.count_cons]
    by_cases hj : j = i <;> split_ifs <;>
      simp_all [List.count_singleton, List.count_cons, List.count_nil] <;>
      omega

lemma mountList_count_le (ts : List Widget) (i : Nat) :
    (mountList ts).count (Ev.mount i) ≤ (nodeIdsList ts).count i := by
  cases ts with
  | nil => simp [mountList, nodeIdsList]
  | cons t ts =>
    simp only [mountList, nodeIdsList, List.count_append]
    exact Nat.add_le_add (mountWidget_count_le t i)
      (mountList_count_le ts i)
end

mutual
lemma unmountWidget_count_le (t : Widget) (i : Nat) :
    (unmountWidget t).count (Ev.unmount i) ≤ (nodeIds t).count i := by
  cases t with
  | nil => simp [unmountWidget, nodeIds]
  | node j l cs =>
    have h := unmountList_count_le cs i
    simp only [unmountWidget, nodeIds, List.count_append, List.count_cons]
    by_cases hj : j = i <;> split_ifs <;>
      simp_all [List.count_singleton, List.count_cons, List.count_nil] <;>
      omega

lemma unmountList_count_le (ts : List Widget) (i : Nat) :
    (unmountList ts).count (Ev.unmount i) ≤ (nodeIdsList ts).count i := by
  cases ts with
  | nil => simp [unmountList, nodeIdsList]
  | cons t ts =>
    simp only [unmountList, nodeIdsList, List.count_append]
    exact Nat.add_le_add (unmountWidget_count_le t i)
      (unmountList_count_le ts i)
end

lemma mountWidget_count_one (t : Widget) (i : Nat) (cs : List Widget)
    (hnd : (nodeIds t).Nodup) (h : InTree (.node i true cs) t) :
    (mountWidget t).count (Ev.mount i) = 1 := by
  have h1 := mountWidget_count_le t i
  have hmem : Ev.mount i ∈ mountWidget t :=
    (mountWidget_sublist_inTree _ t h).subset (by simp [mountWidget])
  have h2 : 0 < (mountWidget t).count (Ev.mount i) :=
    List.count_pos_iff_mem.mpr hmem
  have h3 : (nodeIds t).count i ≤ 1 := List.nodup_iff_count_le_one.mp hnd i
  omega

lemma unmountWidget_count_one (t : Widget) (i : Nat) (cs : List Widget)
    (hnd : (nodeIds t).Nodup) (h : InTree (.node i true cs) t) :
    (unmountWidget t).count (Ev.unmount i) = 1 := by
  have h1 := unmountWidget_count_le t i
  have hmem : Ev.unmount i ∈ unmountWidget t :=
    (unmountWidget_sublist_inTree _ t h).subset (by simp [unmountWidget])
  have h2 : 0 < (unmountWidget t).count (Ev.unmount i) :=
    List.count_pos_iff_mem.mpr hmem
  have h3 : (nodeIds t).count i ≤ 1 := List.nodup_iff_count_le_one.mp hnd i
  omega

lemma mount_pair_sublist (t : Widget) (ip ic : Nat) (cp cc : List Widget)
    (hpt : InTree (.node ip true cp) t)
    (hcd : Desc (.node ic true cc) (.node ip true cp)) :
    [Ev.mount ip, Ev.mount ic].Sublist (mountWidget t) := by
  obtain ⟨i, l, cs, heq, hsub⟩ := mountWidget_sublist_of_desc _ _ hcd
  injection heq with e1 e2 e3
  subst e1
  subst e2
  subst e3
  have hmem : Ev.mount ic ∈ mountList cp :=
    hsub.subset (by simp [mountWidget])
  have hpair : [Ev.mount ip, Ev.mount ic].Sublist
      (mountWidget (.node ip true cp)) := by
    simp only [mountWidget, if_pos, List.singleton_append]
    exact List.cons_sublist_cons.mpr (List.singleton_sublist.mpr hmem)
  exact hpair.trans (mountWidget_sublist_inTree _ t hpt)

lemma unmount_pair_sublist (t : Widget) (ip ic : Nat) (cp cc : List Widget)
    (hpt : InTree (.node ip true cp) t)
    (hcd : Desc (.node ic true cc) (.node ip true cp)) :
    [Ev.unmount ic, Ev.unmount ip].Sublist (unmountWidget t) := by
  obtain ⟨i, l, cs, heq, hsub⟩ := unmountWidget_sublist_of_desc _ _ hcd
  injection heq with e1 e2 e3
  subst e1
  subst e2
  subst e3
  have hmem : Ev.unmount ic ∈ unmountList cp :=
    hsub.subset (by simp [unmountWidget])
  have hpair : [Ev.unmount ic, Ev.unmount ip].Sublist
      (unmountWidget (.node ip true cp)) := by
    simp only [unmountWidget, if_pos]
    have h1 : [Ev.unmount ic].Sublist (unmountList cp) :=
      List.singleton_sublist.mpr hmem
    have h2 : [Ev.unmount ip].Sublist [Ev.unmount ip] :=
      List.Sublist.refl _
    exact h1.append h2
  exact hpair.trans (unmountWidget_sublist_inTree _ t hpt)

/-- C7. Mount/unmount ordering: attaching a root (`SetRoot` on an empty or
occupied screen, `PushLayer`) fires exactly the tree's Mount-hook trace and
detaching one (`SetRoot` replacement, `PopLayer`) exactly its Unmount-hook
trace; in the mount trace every lifecycle ancestor precedes each of its
lifecycle descendants and in the unmount trace every lifecycle descendant
precedes each of its lifecycle ancestors, each hook firing exactly once. -/
theorem mount_unmount_ordering (t : Widget) (ip ic : Nat)
    (cp cc : List Widget) (hpt : InTree (.node ip true cp) t)
    (hcd : Desc (.node ic true cc) (.node ip true cp))
    (hnd : (nodeIds t).Nodup) (s : Screen) (l0 : Layer)
    (rest : List Layer) (modal : Bool) (base : Layer) (mid : List Layer) :
    ((⟨s.width, s.height, []⟩ : Screen).SetRoot t).2 = mountWidget t ∧
    ((⟨s.width, s.height, l0 :: rest⟩ : Screen).SetRoot Widget.nil).2 =
      unmountWidget l0.root ∧
    (s.PushLayer t modal).2 = mountWidget t ∧
    ((⟨s.width, s.height, base :: (mid ++ [⟨t, modal⟩])⟩ :
        Screen).PopLayer).2.1 = unmountWidget t ∧
    [Ev.mount ip, Ev.mount ic].Sublist (mountWidget t) ∧
    (mountWidget t).count (Ev.mount ip) = 1 ∧
    (mountWidget t).count (Ev.mount ic) = 1 ∧
    [Ev.unmount ic, Ev.unmount ip].Sublist (unmountWidget t) ∧
    (unmountWidget t).count (Ev.unmount ip) = 1 ∧
    (unmountWidget t).count (Ev.unmount ic) = 1 := by
  have hct : InTree (.node ic true cc) t :=
    inTree_of_desc_inTree _ _ t hcd hpt
  refine ⟨rfl, ?_, rfl, ?_, ?_, ?_, ?_, ?_, ?_, ?_⟩
  · simp [Screen.SetRoot, mountWidget]
  · unfold Screen.PopLayer
    rw [if_neg (by simp)]
    simp only []
    rw [show (base :: (mid ++ [(⟨t, modal⟩ : Layer)])) =
      (base :: mid) ++ [(⟨t, modal⟩ : Layer)] from by simp]
    rw [List.getLastD_concat]
  · exact mount_pair_sublist t ip ic cp cc hpt hcd
  · exact mountWidget_count_one t ip cp hnd hpt
  · exact mountWidget_count_one t ic cc hnd hct
  · exact unmount_pair_sublist t ip ic cp cc hpt hcd
  · exact unmountWidget_count_one t ip cp hnd hpt
  · exact unmountWidget_count_one t ic cc hnd hct

/-- Witness for C7 at the spec's own example: the tree root→child with
lifecycle hooks on both nodes. -/
theorem mount_unmount_ordering_witness :
    (InTree (Widget.node 0 true [Widget.node 1 true []])
        (Widget.node 0 true [Widget.node 1 true []]) ∧
      Desc (Widget.node 1 true [])
        (Widget.node 0 true [Widget.node 1 true []]) ∧
      (nodeIds (Widget.node 0 true [Widget.node 1 true []])).Nodup) ∧
    (((⟨4, 4, []⟩ : Screen).SetRoot
        (Widget.node 0 true [Widget.node 1 true []])).2 =
      mountWidget (Widget.node 0 true [Widget.node 1 true []]) ∧
    ((⟨4, 4, [⟨Widget.nil, false⟩]⟩ : Screen).SetRoot Widget.nil).2 =
      unmountWidget (⟨Widget.nil, false⟩ : Layer).root ∧
    ((⟨4, 4, []⟩ : Screen).PushLayer
        (Widget.node 0 true [Widget.node 1 true []]) false).2 =
      mountWidget (Widget.node 0 true [Widget.node 1 true []]) ∧
    ((⟨4, 4, (⟨Widget.nil, false⟩ : Layer) :: ([] ++
        [⟨Widget.node 0 true [Widget.node 1 true []], false⟩])⟩ :
        Screen).PopLayer).2.1 =
      unmountWidget (Widget.node 0 true [Widget.node 1 true []]) ∧
    [Ev.mount 0, Ev.mount 1].Sublist
      (mountWidget (Widget.node 0 true [Widget.node 1 true []])) ∧
    (mountWidget (Widget.node 0 true [Widget.node 1 true []])).count
      (Ev.mount 0) = 1 ∧
    (mountWidget (Widget.node 0 true [Widget.node 1 true []])).count
      (Ev.mount 1) = 1 ∧
    [Ev.unmount 1, Ev.unmount 0].Sublist
      (unmountWidget (Widget.node 0 true [Widget.node 1 true []])) ∧
    (unmountWidget (Widget.node 0 true [Widget.node 1 true []])).count
      (Ev.unmount 0) = 1 ∧
    (unmountWidget (Widget.node 0 true [Widget.node 1 true []])).count
      (Ev.unmount 1) = 1) :=
  ⟨⟨Or.inl rfl,
      Desc.here 0 true [Widget.node 1 true []] (Widget.node 1 true [])
        (List.mem_singleton.mpr rfl),
      by decide⟩,
    mount_unmount_ordering (Widget.node 0 true [Widget.node 1 true []]) 0 1
      [Widget.node 1 true []] [] (Or.inl rfl)
      (Desc.here 0 true [Widget.node 1 true []] (Widget.node 1 true [])
        (List.mem_singleton.mpr rfl))
      (by decide) ⟨4, 4, []⟩ ⟨Widget.nil, false⟩ [] false
      ⟨Widget.nil, false⟩ []⟩

/-! ### Claim C8: modal blocking in message dispatch

`(*Screen).HandleMessage` (screen.go:300-343). A widget's `HandleMessage`
verdict for the fixed message under consideration is abstracted as
`hres : Widget → Bool`; commands are not modelled because `handleCommand`
(screen.go:346-362) never invokes `HandleMessage`, so they cannot add a
layer root to the invocation trace. The mouse pre-phase's hit grid is
abstracted by the target it resolves (`WidgetAt`), which `buildHitGrid`
(screen.go:364-389) draws from the topmost layer alone whenever that layer
is modal, together with the `hitGridModal` flag it sets to the top layer's
modal bit. -/

/-- The top-to-bottom dispatch loop of `HandleMessage` (screen.go:319-340):
skip nil roots, stop returning the result when a root handles the message,
stop without a result below a modal layer. Takes the layers top-first and
returns the roots whose `HandleMessage` was invoked, in order, with the
final handled verdict. -/
def dispatchFromTop (hres : Widget → Bool) :
    List Layer → List Widget × Bool
  | [] => ([], false)
  | layer :: lower =>
    match layer.root with
    | .nil => dispatchFromTop hres lower
    | .node i l cs =>
      if hres (.node i l cs) then ([.node i l cs], true)
      else if layer.modal then ([.node i l cs], false)
      else
        ((.node i l cs) :: (dispatchFromTop hres lower).1,
          (dispatchFromTop hres lower).2)

/-- Shallow embedding of `(*Screen).HandleMessage` (screen.go:300-343),
returning the widgets whose `HandleMessage` was invoked and the handled
verdict. -/
def Screen.HandleMessage (s : Screen) (hres : Widget → Bool)
    (isMouse : Bool) (hitTarget : Option Widget) : List Widget × Bool :=
  let hitGridModal :=
    match s.layers.getLast? with
    | some top => top.modal
    | none => false
  if isMouse then
    match hitTarget with
    | some w =>
      if hres w || hitGridModal then ([w], hres w)
      else (w :: (dispatchFromTop hres s.layers.reverse).1,
        (dispatchFromTop hres s.layers.reverse).2)
    | none =>
      if hitGridModal then ([], false)
      else dispatchFromTop hres s.layers.reverse
  else dispatchFromTop hres s.layers.reverse

/-- C8 counterexample: a screen whose base layer's root handles everything
and whose topmost layer is modal with a nil root. Every widget of the top
layer (there are none) vacuously reports not-handled, yet the dispatch loop
skips the nil root with `continue` before reaching the modal check
(screen.go:321-323), invokes the base layer's root, and returns handled —
contradicting the claim. -/
theorem modal_blocking_counterexample :
    (∀ (i : Nat) (l : Bool) (cs : List Widget),
      InTree (Widget.node i l cs) (⟨Widget.nil, true⟩ : Layer).root →
      (fun _ : Widget => true) (Widget.node i l cs) = false) ∧
    (⟨(⟨Widget.nil, true⟩ : Layer).root, true⟩ : Layer).modal = true ∧
    Screen.HandleMessage
        ⟨4, 4, [⟨Widget.node 0 false [], false⟩, ⟨Widget.nil, true⟩]⟩
        (fun _ => true) false none =
      ([Widget.node 0 false []], true) := by
  refine ⟨?_, rfl, rfl⟩
  intro i l cs h
  rcases h with h | h
  · cases h
  · cases h

/-- C8 (amended). For every screen whose topmost layer is modal with a
non-nil root, and every message on which every widget of that top layer
reports not-handled (with any mouse hit target drawn from that layer, as
the modal hit grid guarantees), `HandleMessage` invokes `HandleMessage`
only on widgets of the top layer — no root of any layer beneath receives
the message — and returns not-handled. A modal layer whose root is nil does
not block, because the dispatch loop skips nil roots before the modal
check. -/
theorem modal_blocks_lower_layers (lower : List Layer) (top : Layer)
    (s : Screen) (hs : s.layers = lower ++ [top]) (hres : Widget → Bool)
    (isMouse : Bool) (hitTarget : Option Widget)
    (hmodal : top.modal = true) (hnonnil : top.root ≠ Widget.nil)
    (hroot : ∀ (i : Nat) (l : Bool) (cs : List Widget),
      InTree (.node i l cs) top.root → hres (.node i l cs) = false)
    (hhit : ∀ w, hitTarget = some w → InTree w top.root ∧ w ≠ Widget.nil) :
    (s.HandleMessage hres isMouse hitTarget).2 = false ∧
      ∀ w ∈ (s.HandleMessage hres isMouse hitTarget).1,
        InTree w top.root := by
  obtain ⟨sw, sh, slayers⟩ := s
  simp only [] at hs
  subst hs
  have hlast : (lower ++ [top]).getLast? = some top := by
    simp [List.getLast?_concat]
  have hrev : (lower ++ [top]).reverse = top :: lower.reverse := by simp
  obtain ⟨it, lt, cst, hteq⟩ : ∃ i l cs, top.root = Widget.node i l cs := by
    cases htop : top.root with
    | nil => exact absurd htop hnonnil
    | node i l cs => exact ⟨i, l, cs, rfl⟩
  have hrootres : hres top.root = false := by
    rw [hteq]
    exact hroot it lt cst (by rw [← hteq]; exact Or.inl rfl)
  have hdisp : dispatchFromTop hres ((lower ++ [top]).reverse) =
      ([top.root], false) := by
    rw [hrev]
    show dispatchFromTop hres (top :: lower.reverse) = _
    rw [dispatchFromTop]
    rw [hteq]
    simp only []
    rw [if_neg (by rw [← hteq, hrootres]; exact Bool.false_ne_true),
      if_pos hmodal, ← hteq]
  unfold Screen.HandleMessage
  simp only [hlast]
  cases isMouse with
  | false =>
    rw [if_neg (Bool.false_ne_true), hdisp]
    refine ⟨rfl, ?_⟩
    intro w hw
    rw [List.mem_singleton] at hw
    subst hw
    exact Or.inl rfl
  | true =>
    rw [if_pos rfl]
    cases hitTarget with
    | none =>
      dsimp only []
      rw [if_pos hmodal]
      exact ⟨rfl, fun w hw => absurd hw (List.not_mem_nil w)⟩
    | some w =>
      obtain ⟨hwt, hwn⟩ := hhit w rfl
      have hwres : hres w = false := by
        cases hww : w with
        | nil => exact absurd hww hwn
        | node i l cs =>
          exact hroot i l cs (by rw [← hww]; exact hwt)
      dsimp only []
      rw [hwres, hmodal]
      rw [if_pos (show (false || true) = true from rfl)]
      refine ⟨rfl, ?_⟩
      intro v hv
      rw [List.mem_singleton] at hv
      subst hv
      exact hwt

/-- Witness for C8 (amended) at a concrete input: a base layer under a modal
layer whose root handles nothing. -/
theorem modal_blocks_lower_layers_witness :
    (((⟨4, 4, [⟨Widget.node 0 false [], false⟩] ++
          [⟨Widget.node 1 false [], true⟩]⟩ : Screen)).layers =
        [⟨Widget.node 0 false [], false⟩] ++
          [⟨Widget.node 1 false [], true⟩] ∧
      (⟨Widget.node 1 false [], true⟩ : Layer).modal = true ∧
      (⟨Widget.node 1 false [], true⟩ : Layer).root ≠ Widget.nil) ∧
    ((Screen.HandleMessage
        ⟨4, 4, [⟨Widget.node 0 false [], false⟩] ++
          [⟨Widget.node 1 false [], true⟩]⟩
        (fun _ => false) false none).2 = false ∧
      ∀ w ∈ (Screen.HandleMessage
        ⟨4, 4, [⟨Widget.node 0 false [], false⟩] ++
          [⟨Widget.node 1 false [], true⟩]⟩
        (fun _ => false) false none).1,
        InTree w (⟨Widget.node 1 false [], true⟩ : Layer).root) :=
  ⟨⟨rfl, rfl, fun h => Widget.noConfusion h⟩,
    modal_blocks_lower_layers [⟨Widget.node 0 false [], false⟩]
      ⟨Widget.node 1 false [], true⟩
      ⟨4, 4, [⟨Widget.node 0 false [], false⟩] ++
        [⟨Widget.node 1 false [], true⟩]⟩
      rfl (fun _ => false) false none rfl
      (fun h => Widget.noConfusion h)
      (fun _ _ _ _ => rfl)
      (fun w h => Option.noConfusion h)⟩

/-! ### Claim C5: nil-receiver behaviour of the public operations

In Go, calling a method on a nil pointer runs the body with the receiver
nil; the first dereference of the receiver panics unless the body checks
for nil first. Each operation is wrapped over an `Option` receiver:
`none` is the nil receiver, and the wrapper returns `.error .nilDeref`
exactly when the source body dereferences the receiver before any nil
guard. -/

/-- Outcome of running a method body on a nil receiver: `nilDeref` is the
runtime panic raised by the first field access. -/
inductive NilPanic where
  | nilDeref
deriving DecidableEq, Repr

/-- The message-channel state of an `App` that `tryPost` consults
(app.go): `messages` is the buffered channel (`none` when the channel
field is nil), `cap` its capacity; a non-blocking send succeeds exactly
when the buffer has room. -/
structure App where
  messages : Option (List Nat)
  cap : Nat

/-- Shallow embedding of `(*App).tryPost` (app.go): a nil receiver or a
nil `messages` channel returns false with no dereference of consequence
(the guard `a == nil || a.messages == nil` comes first); otherwise the
non-blocking `select` enqueues when the buffer is below capacity and
reports failure when it is full. -/
def App.tryPost : Option App → Nat → Except NilPanic (Option App × Bool)
  | none, _ => .ok (none, false)
  | some a, msg =>
    match a.messages with
    | none => .ok (some a, false)
    | some q =>
      if q.length < a.cap then
        .ok (some { a with messages := some (q ++ [msg]) }, true)
      else .ok (some a, false)

/-- Shallow embedding of `(*App).Post` (app.go): `tryPost` with the result
discarded. -/
def App.Post (a : Option App) (msg : Nat) : Except NilPanic (Option App) :=
  match App.tryPost a msg with
  | .ok (a', _) => .ok a'
  | .error e => .error e

/-- Nil-receiver wrapper of `(*Buffer).Set` (buffer.go:108-119): the body
reads `b.width` in its bounds check before any nil guard, so a nil
receiver panics. -/
def Buffer.SetOpt : Option Buffer → Int → Int → Char → Style →
    Except NilPanic (Option Buffer)
  | none, _, _, _, _ => .error .nilDeref
  | some b, x, y, r, st => .ok (some (b.Set x y r st))

/-- Nil-receiver wrapper of `(*Buffer).Get` (buffer.go:99-104): the body
reads `b.width` in its bounds check before any nil guard, so a nil
receiver panics. -/
def Buffer.GetOpt : Option Buffer → Int → Int → Except NilPanic Cell
  | none, _, _ => .error .nilDeref
  | some b, x, y => .ok (b.Get x y)

/-- Nil-receiver wrapper of `(*Screen).Resize` (screen.go:76-92): the body
assigns `s.width` first with no nil guard, so a nil receiver panics. In
the non-nil case only the dimension fields of the `Screen` model are
updated; the owned buffer's resize is modelled separately by
`Buffer.Resize`. -/
def Screen.ResizeOpt : Option Screen → Nat → Nat →
    Except NilPanic (Option Screen)
  | none, _, _ => .error .nilDeref
  | some s, w, h => .ok (some { s with width := w, height := h })

/-- Nil-receiver wrapper of `(*Screen).SetRoot` (screen.go:101-121): the
body reads `s.layers` first with no nil guard, so a nil receiver
panics. -/
def Screen.SetRootOpt : Option Screen → Widget →
    Except NilPanic (Option Screen)
  | none, _ => .error .nilDeref
  | some s, root => .ok (some (s.SetRoot root).1)

/-- Nil-receiver wrapper of `(*Invalidator).Invalidate`
(invalidator.go:17-26): the body starts with `if i == nil || i.post == nil
{ return }`, so a nil receiver is a no-op. -/
def Invalidator.InvalidateOpt : Option Invalidator → Bool →
    Except NilPanic (Option Invalidator)
  | none, _ => .ok none
  | some i, ok => .ok (some (i.Invalidate ok))

/-- Nil-receiver wrapper of `(*QueueScheduler).Schedule`
(queue_scheduler.go): the body starts with a nil guard on the receiver,
so a nil receiver is a no-op. -/
def QueueScheduler.ScheduleOpt : Option QueueScheduler → Option Nat →
    Bool → Except NilPanic (Option QueueScheduler)
  | none, _, _ => .ok none
  | some s, fn, ok => .ok (some (s.Schedule fn ok))

/-- C5 counterexample: the Buffer operations and the core Screen
operations have no nil guard and dereference a nil receiver, so they do
not degrade to a no-op as the claim states for every public operation. -/
theorem nil_receiver_panics :
    Buffer.SetOpt none 0 0 'X' ⟨0⟩ = .error .nilDeref ∧
    Buffer.GetOpt none 0 0 = .error .nilDeref ∧
    Screen.ResizeOpt none 3 3 = .error .nilDeref ∧
    Screen.SetRootOpt none Widget.nil = .error .nilDeref :=
  ⟨rfl, rfl, rfl, rfl⟩

/-- C5 (amended). The scheduling primitives and the App post operations
guard their receiver and degrade to a no-op on nil
(`Invalidator.Invalidate`, `QueueScheduler.Schedule`, `App.Post`,
`App.tryPost` — the latter additionally reporting false); the Buffer
operations (`Set`, `Get`) and the core Screen operations (`Resize`,
`SetRoot`) have no such guard and dereference a nil receiver, panicking.
Nil-receiver totality holds for the guarded subset only, for every
argument. -/
theorem nil_receiver_split (x y : Int) (r : Char) (st : Style) (ok : Bool)
    (fn : Option Nat) (msg : Nat) (w h : Nat) (root : Widget) :
    Invalidator.InvalidateOpt none ok = .ok none ∧
    QueueScheduler.ScheduleOpt none fn ok = .ok none ∧
    App.tryPost none msg = .ok (none, false) ∧
    App.Post none msg = .ok none ∧
    Buffer.SetOpt none x y r st = .error .nilDeref ∧
    Buffer.GetOpt none x y = .error .nilDeref ∧
    Screen.ResizeOpt none w h = .error .nilDeref ∧
    Screen.SetRootOpt none root = .error .nilDeref :=
  ⟨rfl, rfl, rfl, rfl, rfl, rfl, rfl, rfl⟩

end FurryUI
